import Mathlib

/-!
Verification development for the `rust-ray-tracing` renderer.

The Rust sources are shallowly embedded as follows.

* `f64` values are modelled by the type `F`: exact rationals (`F.fin`),
  the two infinities and a quiet NaN.  Rounding and the sign of zero are
  not modelled; every arithmetic operation follows the IEEE-754 special
  value tables otherwise (`inf - inf = nan`, `0 * inf = nan`,
  `x / 0` is a signed infinity or NaN, every comparison with NaN is
  false, ...).
* `f64::sqrt` is not rational, so every definition that needs it takes a
  parameter `s : ℚ → ℚ` giving the square root of a non-negative finite
  value; `ratSqrt` is a concrete instance that is exact on arguments
  whose numerator and denominator are perfect squares, which is enough
  to evaluate the models on the concrete inputs appearing below.
* SIMD vectors of width `n` (`Simd<f64, N>`, `Mask<i64, N>`, packed
  vectors/colors/rays) are modelled as functions `Fin n → _`.
* Growable buffers (`Vec<PackedRays<N>>` and friends) are modelled as
  `List`s with default-valued out-of-range reads; the Rust code would
  panic on an out-of-range index, and no statement below exercises one.
* Thread-local randomness is modelled by an explicit generator state
  `Rng` holding streams of gaussian vector draws and uniform draws plus
  cursors; every function that draws randomness threads the state.
-/

namespace RayTrace

/-- An IEEE-754 double, idealized: finite values are exact rationals,
plus the two infinities and NaN.  The sign of zero is not modelled. -/
inductive F where
  | fin : ℚ → F
  | inf : F
  | ninf : F
  | nan : F
deriving DecidableEq, Repr

namespace F

/-- Negation of a double. -/
def neg : F → F
  | fin q => fin (-q)
  | inf => ninf
  | ninf => inf
  | nan => nan

/-- Addition of doubles; `inf + ninf = nan`, NaN propagates. -/
def add : F → F → F
  | fin a, fin b => fin (a + b)
  | fin _, inf => inf
  | fin _, ninf => ninf
  | inf, fin _ => inf
  | ninf, fin _ => ninf
  | inf, inf => inf
  | ninf, ninf => ninf
  | inf, ninf => nan
  | ninf, inf => nan
  | _, _ => nan

/-- Subtraction of doubles. -/
def sub (a b : F) : F := a.add b.neg

/-- `q * (+inf)` for finite `q`: NaN at zero, else a signed infinity. -/
def mulSignInf (q : ℚ) : F := if q = 0 then nan else if 0 < q then inf else ninf

/-- Multiplication of doubles; `0 * inf = nan`, NaN propagates. -/
def mul : F → F → F
  | fin a, fin b => fin (a * b)
  | fin a, inf => mulSignInf a
  | fin a, ninf => (mulSignInf a).neg
  | inf, fin b => mulSignInf b
  | ninf, fin b => (mulSignInf b).neg
  | inf, inf => inf
  | inf, ninf => ninf
  | ninf, inf => ninf
  | ninf, ninf => inf
  | _, _ => nan

/-- Finite-by-finite division: division by zero gives NaN (for a zero
numerator) or a signed infinity.  The sign of the zero divisor is not
modelled; the positive sign is used, matching the `+0.0` divisors
(`a = direction.length_squared()`) that actually occur in the code. -/
def divFin (a b : ℚ) : F :=
  if b = 0 then (if a = 0 then nan else if 0 < a then inf else ninf) else fin (a / b)

/-- Division of doubles; `fin / inf = 0`, `inf / inf = nan`, NaN propagates. -/
def div : F → F → F
  | fin a, fin b => divFin a b
  | fin _, inf => fin 0
  | fin _, ninf => fin 0
  | inf, fin b => if 0 ≤ b then inf else ninf
  | ninf, fin b => if 0 ≤ b then ninf else inf
  | _, _ => nan

/-- Strict order on doubles; every comparison involving NaN is false. -/
def lt : F → F → Bool
  | fin a, fin b => a < b
  | fin _, inf => true
  | ninf, fin _ => true
  | ninf, inf => true
  | _, _ => false

/-- Non-strict order on doubles; every comparison involving NaN is false. -/
def le : F → F → Bool
  | fin a, fin b => a ≤ b
  | fin _, inf => true
  | ninf, fin _ => true
  | ninf, inf => true
  | ninf, ninf => true
  | inf, inf => true
  | _, _ => false

/-- `f64::sqrt`, parameterized by the exact square root `s` of
non-negative finite values; the square root of a negative value is NaN. -/
def sqrtW (s : ℚ → ℚ) : F → F
  | fin q => if q < 0 then nan else fin (s q)
  | inf => inf
  | _ => nan

/-- `f64::min`: if one argument is NaN the other is returned. -/
def fmin : F → F → F
  | nan, b => b
  | a, nan => a
  | a, b => if le a b then a else b

/-- `f64::abs`. -/
def fabs : F → F
  | fin q => fin |q|
  | inf => inf
  | ninf => inf
  | nan => nan

/-- `f64::powi` for a non-negative exponent (only 2 and 5 are used). -/
def powi (x : F) (n : ℕ) : F := (List.range n).foldl (fun acc _ => acc.mul x) (fin 1)

/-- `f64::mul_add`: the fusion only affects rounding, which is not
modelled, so it is multiply-then-add. -/
def mulAdd (a b c : F) : F := (a.mul b).add c

/-- The total order `ordered_float::OrderedFloat` puts on doubles:
`-inf < finite < +inf < NaN`. -/
def orderedLt : F → F → Bool
  | ninf, ninf => false
  | ninf, _ => true
  | fin a, fin b => a < b
  | fin _, ninf => false
  | fin _, _ => true
  | inf, nan => true
  | inf, _ => false
  | nan, _ => false

instance : Add F := ⟨F.add⟩
instance : Sub F := ⟨F.sub⟩
instance : Mul F := ⟨F.mul⟩
instance : Div F := ⟨F.div⟩
instance : Neg F := ⟨F.neg⟩

end F

/-- A concrete square-root on the rationals, exact whenever the
numerator and denominator are perfect squares (all concrete inputs used
below are of this form). -/
def ratSqrt (q : ℚ) : ℚ :=
  if q ≤ 0 then 0
  else
    let n := Nat.sqrt q.num.toNat
    let d := Nat.sqrt q.den
    if n * n = q.num.toNat ∧ d * d = q.den then (n : ℚ) / d else 0

/-! ### `geometry.rs`: scalar three-vectors -/

/-- `Vec3` from `geometry.rs`: three doubles. -/
structure Vec3 where
  x : F
  y : F
  z : F
deriving DecidableEq, Repr

namespace Vec3

/-- `Vec3::new`. -/
def new (x y z : F) : Vec3 := ⟨x, y, z⟩

/-- `Vec3::zero`. -/
def zero : Vec3 := ⟨.fin 0, .fin 0, .fin 0⟩

/-- Componentwise `Add for Vec3`. -/
def add (a b : Vec3) : Vec3 := ⟨a.x + b.x, a.y + b.y, a.z + b.z⟩

/-- Componentwise `Sub for Vec3`. -/
def sub (a b : Vec3) : Vec3 := ⟨a.x - b.x, a.y - b.y, a.z - b.z⟩

/-- `Mul<f64> for Vec3` (vector times scalar). -/
def smul (a : Vec3) (k : F) : Vec3 := ⟨a.x * k, a.y * k, a.z * k⟩

/-- `Div<f64> for Vec3`. -/
def sdiv (a : Vec3) (k : F) : Vec3 := ⟨a.x / k, a.y / k, a.z / k⟩

/-- `Neg for Vec3`. -/
def negv (a : Vec3) : Vec3 := ⟨-a.x, -a.y, -a.z⟩

/-- `Vec3::length_squared`: `x.powi(2) + y.powi(2) + z.powi(2)`. -/
def length_squared (a : Vec3) : F := a.x.powi 2 + a.y.powi 2 + a.z.powi 2

/-- `Vec3::length`. -/
def length (s : ℚ → ℚ) (a : Vec3) : F := a.length_squared.sqrtW s

/-- `Vec3::unit`: `self / self.length()`. -/
def unit (s : ℚ → ℚ) (a : Vec3) : Vec3 := a.sdiv (a.length s)

/-- `Vec3::dot`. -/
def dot (a b : Vec3) : F := a.x * b.x + a.y * b.y + a.z * b.z

/-- `Vec3::near_zero`: all components have magnitude below `1E-8`. -/
def near_zero (a : Vec3) : Bool :=
  F.lt a.x.fabs (.fin (1/100000000)) && F.lt a.y.fabs (.fin (1/100000000)) &&
    F.lt a.z.fabs (.fin (1/100000000))

/-- `Vec3::reflect`: `self - 2.0 * self.dot(normal) * normal`
(`f64 * Vec3` delegates to `Vec3 * f64`, so the scalar factor
`2.0 * dot` is computed first). -/
def reflect (a n : Vec3) : Vec3 := a.sub (n.smul (F.fin 2 * a.dot n))

/-- `Vec3::refract`. -/
def refract (s : ℚ → ℚ) (a n : Vec3) (refraction_ratio : F) : Vec3 :=
  let cos_theta := (a.negv.dot n).fmin (.fin 1)
  let r_out_perpendicular := (a.add (n.smul cos_theta)).smul refraction_ratio
  let r_out_parallel :=
    n.smul (-(((F.fin 1 - r_out_perpendicular.length_squared).fabs).sqrtW s))
  r_out_perpendicular.add r_out_parallel

end Vec3

/-- `Point3` is an alias of `Vec3`. -/
abbrev Point3 := Vec3

/-! ### `color.rs`: scalar colors -/

/-- `Color` from `color.rs`: three double channels. -/
structure Color where
  red : F
  green : F
  blue : F
deriving DecidableEq, Repr

namespace Color

/-- `Color::new`. -/
def new (red green blue : F) : Color := ⟨red, green, blue⟩

/-- `Color::black`. -/
def black : Color := ⟨.fin 0, .fin 0, .fin 0⟩

/-- `Color::white`. -/
def white : Color := ⟨.fin 1, .fin 1, .fin 1⟩

/-- Elementwise `Mul<Color> for Color`. -/
def mulc (a b : Color) : Color := ⟨a.red * b.red, a.green * b.green, a.blue * b.blue⟩

/-- `Mul<f64> for Color`. -/
def smul (a : Color) (k : F) : Color := ⟨a.red * k, a.green * k, a.blue * k⟩

/-- The Rust `as u8` cast from a double: saturating, truncating toward
zero; NaN maps to 0. -/
def f64AsU8 : F → ℕ
  | .fin q => if q < 0 then 0 else min 255 q.floor.toNat
  | .inf => 255
  | .ninf => 0
  | .nan => 0

/-- `Color::to_u8_array`, with the three `assert!(channel <= 2.0)`
preconditions modelled as `none` (a panic) when they fail. -/
def to_u8_array (s : ℚ → ℚ) (c : Color) : Option (ℕ × ℕ × ℕ) :=
  if F.le c.red (.fin 2) && F.le c.green (.fin 2) && F.le c.blue (.fin 2) then
    some (f64AsU8 ((c.red.sqrtW s) * .fin (255999/1000)),
          f64AsU8 ((c.green.sqrtW s) * .fin (255999/1000)),
          f64AsU8 ((c.blue.sqrtW s) * .fin (255999/1000)))
  else none

end Color

/-! ### `ray.rs`: scalar rays -/

/-- `Ray` from `ray.rs`. -/
structure Ray where
  origin : Point3
  direction : Vec3
deriving DecidableEq, Repr

namespace Ray

/-- `Ray::at`: `origin + direction * t` (`at` is a Lean keyword, hence
the name `atF`). -/
def atF (r : Ray) (t : F) : Point3 := r.origin.add (r.direction.smul t)

end Ray

/-- A `Range<f64>` of valid ray parameters, as used by the hit tests. -/
structure TRange where
  lo : F
  hi : F
deriving DecidableEq, Repr

/-- `Range::contains` for doubles: `start <= t && t < end` (NaN fails). -/
def TRange.containsF (r : TRange) (t : F) : Bool := F.le r.lo t && F.lt t r.hi

/-- The range `0.001..f64::INFINITY` passed at every call site. -/
def tRangeDefault : TRange := ⟨.fin (1/1000), .inf⟩

/-! ### Thread-local randomness

`rand::thread_rng` draws are modelled by an explicit state: a stream of
gaussian 3-vectors (the three `Normal::sample` calls inside
`Vec3::random_unit_vector`) and a stream of uniform draws
(`gen_range(0.0..1.0)`), each with a cursor. -/

/-- The modelled random-generator state. -/
structure Rng where
  vecs : ℕ → Vec3
  uniforms : ℕ → ℚ
  vi : ℕ
  ui : ℕ

/-- `Vec3::random_unit_vector`: three gaussian samples (one `vecs` draw),
normalized, with the `near_zero` fallback to `(0,0,1)`. -/
def randomUnitVector (s : ℚ → ℚ) (rng : Rng) : Vec3 × Rng :=
  let vector := rng.vecs rng.vi
  let rng2 : Rng := { rng with vi := rng.vi + 1 }
  (if vector.near_zero then Vec3.new (.fin 0) (.fin 0) (.fin 1) else vector.unit s, rng2)

/-- A `gen_range(0.0..1.0)` draw. -/
def uniformDraw (rng : Rng) : F × Rng :=
  (.fin (rng.uniforms rng.ui), { rng with ui := rng.ui + 1 })

/-! ### `materials.rs` and hit records -/

/-- The closed set of material kinds (`Lambertian`, `Metal`,
`Dielectric`); the `Metal` fields hold the already-clamped fuzz factor
stored by `Metal::new`. -/
inductive Material where
  | lambertian (albedo : Color)
  | metal (albedo : Color) (fuzzy_factor : F)
  | dielectric (index_of_refraction : F) (hollow : Bool)
deriving DecidableEq, Repr

/-- `HitRecord` from `objects.rs`; the material reference is the
material value itself. -/
structure HitRecord where
  location : Point3
  normal : Vec3
  t : F
  front_face : Bool
  material : Material
deriving DecidableEq, Repr

/-- `HitRecord::new`: orient the outward normal against the ray. -/
def HitRecord.new (ray : Ray) (location : Point3) (outward_normal : Vec3) (t : F)
    (material : Material) : HitRecord :=
  if F.lt (ray.direction.dot outward_normal) (.fin 0) then
    ⟨location, outward_normal, t, true, material⟩
  else
    ⟨location, outward_normal.negv, t, false, material⟩

/-- `HitResult` from `objects.rs`. -/
structure HitResult where
  attenuation : Color
  scattered_ray : Option Ray
deriving DecidableEq, Repr

/-- `Dielectric::reflectance` (Schlick approximation). -/
def dielectricReflectance (cosine index_of_refraction : F) : F :=
  let r0 := ((F.fin 1 - index_of_refraction) / (F.fin 1 + index_of_refraction)).powi 2
  r0 + (F.fin 1 - r0) * (F.fin 1 - cosine).powi 5

/-- `Material::get_hit_result` for the three material kinds, threading
the generator state.  The `||` in the dielectric's reflect-or-refract
test short-circuits, so the uniform draw happens only when refraction
is geometrically possible. -/
def Material.get_hit_result (s : ℚ → ℚ) (m : Material) (ray : Ray) (hit_record : HitRecord)
    (rng : Rng) : HitResult × Rng :=
  match m with
  | .lambertian albedo =>
    let (ruv, rng2) := randomUnitVector s rng
    let scatter_direction := ruv.add hit_record.normal
    let scatter_direction :=
      if scatter_direction.near_zero then hit_record.normal else scatter_direction
    (⟨albedo, some ⟨hit_record.location, scatter_direction⟩⟩, rng2)
  | .metal albedo fuzzy_factor =>
    let (ruv, rng2) := randomUnitVector s rng
    let reflected := (ray.direction.reflect hit_record.normal).add (ruv.smul fuzzy_factor)
    (⟨albedo, some ⟨hit_record.location, reflected⟩⟩, rng2)
  | .dielectric index_of_refraction hollow =>
    let refraction_ratio :=
      if hit_record.front_face then F.fin 1 / index_of_refraction else index_of_refraction
    let normal := if hollow then hit_record.normal.negv else hit_record.normal
    let cos_theta := (ray.direction.negv.dot normal).fmin (.fin 1)
    let sin_theta := (F.fin 1 - cos_theta.powi 2).sqrtW s
    let cannot_refract := F.lt (.fin 1) (refraction_ratio * sin_theta)
    if cannot_refract then
      (⟨Color.white, some ⟨hit_record.location, ray.direction.reflect normal⟩⟩, rng)
    else
      let (u, rng2) := uniformDraw rng
      let refracted_direction :=
        if F.lt u (dielectricReflectance cos_theta refraction_ratio) then
          ray.direction.reflect normal
        else
          ray.direction.refract s normal refraction_ratio
      (⟨Color.white, some ⟨hit_record.location, refracted_direction⟩⟩, rng2)

/-! ### `objects.rs`: spheres and the scalar hit test -/

/-- `Sphere` from `objects.rs`. -/
structure Sphere where
  center : Point3
  radius : F
  material : Material
deriving DecidableEq, Repr

/-- The discriminant `half_b.powi(2) - a * c` computed by `Sphere::hit`. -/
def Sphere.scalarDiscriminant (sp : Sphere) (ray : Ray) : F :=
  let center_offset := ray.origin.sub sp.center
  let a := ray.direction.length_squared
  let half_b := center_offset.dot ray.direction
  let c := center_offset.length_squared - sp.radius.powi 2
  half_b.powi 2 - a * c

/-- `Sphere::hit`: scalar quadratic intersection with the
near-root-first, else far-root selection. -/
def Sphere.hit (s : ℚ → ℚ) (sp : Sphere) (ray : Ray) (t_range : TRange) : Option HitRecord :=
  let center_offset := ray.origin.sub sp.center
  let a := ray.direction.length_squared
  let half_b := center_offset.dot ray.direction
  let discriminant := sp.scalarDiscriminant ray
  if F.lt discriminant (.fin 0) then none
  else
    let sqrt_discriminant := discriminant.sqrtW s
    let root1 := (-half_b - sqrt_discriminant) / a
    let root := if t_range.containsF root1 then root1 else (-half_b + sqrt_discriminant) / a
    if t_range.containsF root then
      let location := ray.atF root
      some (HitRecord.new ray location ((location.sub sp.center).sdiv sp.radius) root sp.material)
    else none

/-- The closed `Object` union (one variant). -/
inductive Object where
  | sphere (s : Sphere)
deriving DecidableEq, Repr

/-- `Object::hit` dispatch. -/
def Object.hit (s : ℚ → ℚ) (o : Object) (ray : Ray) (t_range : TRange) : Option HitRecord :=
  match o with
  | .sphere sp => sp.hit s ray t_range

/-! ### `ray_tracing.rs`: the scene and the scalar recursive tracer -/

/-- `Scene`: the owned object list. -/
structure Scene where
  objects : List Object
deriving Repr

/-- `Scene::hit`: minimum over per-object hits by
`OrderedFloat(h.t())`; Rust's `min_by_key` keeps the first of equally
minimal elements, so a later object replaces the running best only on a
strictly smaller key. -/
def Scene.hit (s : ℚ → ℚ) (scene : Scene) (ray : Ray) (t_range : TRange) : Option HitRecord :=
  (scene.objects.filterMap (fun o => o.hit s ray t_range)).foldl
    (fun best h =>
      match best with
      | none => some h
      | some b => if F.orderedLt h.t b.t then some h else some b)
    none

/-- The sky-gradient color produced when a scalar trace misses all
objects: `a = 0.5 * (direction.y + 1.0)`, blended white to light blue. -/
def skyColor (direction : Vec3) : Color :=
  let a := F.fin (1/2) * (direction.y + F.fin 1)
  Color.new ((F.fin 1 - a) + a * F.fin (1/2))
    ((F.fin 1 - a) + a * F.fin (7/10))
    ((F.fin 1 - a) + a * F.fin 1)

/-- `Scene::trace`: the scalar recursive tracer. -/
def Scene.trace (s : ℚ → ℚ) (scene : Scene) (ray : Ray) (depth_limit : ℕ) (rng : Rng) :
    Color × Rng :=
  match depth_limit with
  | 0 => (Color.black, rng)
  | depth + 1 =>
    match scene.hit s ray tRangeDefault with
    | some hit_record =>
      let (hit_result, rng2) := hit_record.material.get_hit_result s ray hit_record rng
      match hit_result.scattered_ray with
      | some scattered_ray =>
        let (c, rng3) := scene.trace s scattered_ray depth rng2
        (c.mulc hit_result.attenuation, rng3)
      | none => (hit_result.attenuation, rng2)
    | none => (skyColor ray.direction, rng)

/-- Instrumented companion of `Scene.trace` counting how many
single-object intersection tests (`Object::hit` calls) are evaluated. -/
def Scene.traceTestCount (s : ℚ → ℚ) (scene : Scene) (ray : Ray) (depth_limit : ℕ)
    (rng : Rng) : ℕ :=
  match depth_limit with
  | 0 => 0
  | depth + 1 =>
    match scene.hit s ray tRangeDefault with
    | some hit_record =>
      let (hit_result, rng2) := hit_record.material.get_hit_result s ray hit_record rng
      match hit_result.scattered_ray with
      | some scattered_ray =>
        scene.objects.length + scene.traceTestCount s scattered_ray depth rng2
      | none => scene.objects.length
    | none => scene.objects.length

/-! ### `simd_util.rs`: masked lane operations

SIMD vectors of width `n` are modelled as functions `Fin n → _`; masks
as `Fin n → Bool`.  `masked_select` has two implementations in the
source: the portable `mask.select(other, base)` fallback and an AVX2
`blendv` path that selects by the sign bit of each 64-bit mask lane
(a full-lane mask is `-1` when set, `0` when clear). -/

/-- The portable fallback of `simd_util::masked_select`:
`mask.select(other, base)`. -/
def masked_select {n : ℕ} {α : Type} (base other : Fin n → α) (mask : Fin n → Bool) :
    Fin n → α :=
  fun i => if mask i then other i else base i

/-- `simd_util::masked_assign`: `*base = masked_select(*base, other, mask)`. -/
def masked_assign {n : ℕ} {α : Type} (base : Fin n → α) (other : Fin n → α)
    (mask : Fin n → Bool) : Fin n → α :=
  masked_select base other mask

/-- `Mask::to_int`: a set lane is the all-ones integer `-1`, a clear
lane is `0`. -/
def maskToInt {n : ℕ} (mask : Fin n → Bool) : Fin n → ℤ :=
  fun i => if mask i then -1 else 0

/-- The AVX2 `_mm256_blendv_pd` path of `simd_util::masked_select`:
lane `i` takes `other i` exactly when the sign bit of the mask lane is
set, i.e. when the mask integer is negative. -/
def maskedSelectBlendv {n : ℕ} {α : Type} (base other : Fin n → α) (maskInt : Fin n → ℤ) :
    Fin n → α :=
  fun i => if maskInt i < 0 then other i else base i

/-- `simd_inside` for the ranges used here: lanewise
`start <= t && t < end`. -/
def simd_inside {n : ℕ} (values : Fin n → F) (t_range : TRange) : Fin n → Bool :=
  fun i => t_range.containsF (values i)

/-- `Mask::any`. -/
def anyLane {n : ℕ} (mask : Fin n → Bool) : Bool := (List.finRange n).any mask

/-! ### `geometry.rs`: packed three-vectors -/

/-- `PackedVec3<N>`: one SIMD lane vector per component. -/
structure PackedVec3 (n : ℕ) where
  x : Fin n → F
  y : Fin n → F
  z : Fin n → F

namespace PackedVec3

/-- `PackedVec3::default` / `zeros`. -/
def zeros (n : ℕ) : PackedVec3 n := ⟨fun _ => .fin 0, fun _ => .fin 0, fun _ => .fin 0⟩

/-- `PackedVec3::splat` (broadcast a scalar vector). -/
def splat (n : ℕ) (v : Vec3) : PackedVec3 n := ⟨fun _ => v.x, fun _ => v.y, fun _ => v.z⟩

/-- Lanewise `Add`. -/
def addP {n : ℕ} (a b : PackedVec3 n) : PackedVec3 n :=
  ⟨fun i => a.x i + b.x i, fun i => a.y i + b.y i, fun i => a.z i + b.z i⟩

/-- Lanewise `Sub`. -/
def subP {n : ℕ} (a b : PackedVec3 n) : PackedVec3 n :=
  ⟨fun i => a.x i - b.x i, fun i => a.y i - b.y i, fun i => a.z i - b.z i⟩

/-- `Sub<Vec3> for PackedVec3`: subtract a broadcast scalar vector. -/
def subScalar {n : ℕ} (a : PackedVec3 n) (v : Vec3) : PackedVec3 n := a.subP (splat n v)

/-- Lanewise `Neg`. -/
def negP {n : ℕ} (a : PackedVec3 n) : PackedVec3 n :=
  ⟨fun i => -a.x i, fun i => -a.y i, fun i => -a.z i⟩

/-- `Mul<Simd<f64, N>> for PackedVec3`. -/
def mulLane {n : ℕ} (a : PackedVec3 n) (k : Fin n → F) : PackedVec3 n :=
  ⟨fun i => a.x i * k i, fun i => a.y i * k i, fun i => a.z i * k i⟩

/-- `PackedVec3::length_squared`:
`z.mul_add(z, y.mul_add(y, x * x))`. -/
def length_squared {n : ℕ} (a : PackedVec3 n) : Fin n → F :=
  fun i => (a.z i).mulAdd (a.z i) ((a.y i).mulAdd (a.y i) (a.x i * a.x i))

/-- `PackedVec3::dot`: `z.mul_add(rhs.z, y.mul_add(rhs.y, x * rhs.x))`. -/
def dotP {n : ℕ} (a b : PackedVec3 n) : Fin n → F :=
  fun i => (a.z i).mulAdd (b.z i) ((a.y i).mulAdd (b.y i) (a.x i * b.x i))

/-- `PackedVec3::length`. -/
def lengthP (s : ℚ → ℚ) {n : ℕ} (a : PackedVec3 n) : Fin n → F :=
  fun i => (a.length_squared i).sqrtW s

/-- `PackedVec3::unit_vector`: `*self / self.length()`. -/
def unit_vector (s : ℚ → ℚ) {n : ℕ} (a : PackedVec3 n) : PackedVec3 n :=
  ⟨fun i => a.x i / lengthP s a i, fun i => a.y i / lengthP s a i,
   fun i => a.z i / lengthP s a i⟩

/-- `PackedVec3::at`. -/
def atv {n : ℕ} (a : PackedVec3 n) (i : Fin n) : Vec3 := ⟨a.x i, a.y i, a.z i⟩

/-- `PackedVec3::update`. -/
def updateLane {n : ℕ} (a : PackedVec3 n) (i : Fin n) (v : Vec3) : PackedVec3 n :=
  ⟨Function.update a.x i v.x, Function.update a.y i v.y, Function.update a.z i v.z⟩

/-- `PackedVec3::assign_masked`: componentwise `masked_assign`. -/
def assign_masked {n : ℕ} (a values : PackedVec3 n) (mask : Fin n → Bool) : PackedVec3 n :=
  ⟨masked_assign a.x values.x mask, masked_assign a.y values.y mask,
   masked_assign a.z values.z mask⟩

end PackedVec3

/-- `PackedPoint3` is an alias of `PackedVec3`. -/
abbrev PackedPoint3 (n : ℕ) := PackedVec3 n

/-! ### `ray.rs`: packed ray batches -/

/-- `PackedRays<N>`: origins, directions and the per-lane enabled mask. -/
structure PackedRays (n : ℕ) where
  origins : PackedPoint3 n
  directions : PackedVec3 n
  enabled : Fin n → Bool

namespace PackedRays

/-- `PackedRays::new`: all lanes enabled. -/
def new {n : ℕ} (origins : PackedPoint3 n) (directions : PackedVec3 n) : PackedRays n :=
  ⟨origins, directions, fun _ => true⟩

/-- `PackedRays::is_enabled`. -/
def is_enabled {n : ℕ} (r : PackedRays n) (i : Fin n) : Bool := r.enabled i

/-- `PackedRays::at`: `None` for a disabled lane. -/
def atR {n : ℕ} (r : PackedRays n) (i : Fin n) : Option Ray :=
  if r.enabled i then some ⟨r.origins.atv i, r.directions.atv i⟩ else none

/-- `PackedRays::at_including_disabled`. -/
def at_including_disabled {n : ℕ} (r : PackedRays n) (i : Fin n) : Ray :=
  ⟨r.origins.atv i, r.directions.atv i⟩

/-- `PackedRays::at_t`: `origins + directions * t`. -/
def at_t {n : ℕ} (r : PackedRays n) (t : Fin n → F) : PackedPoint3 n :=
  r.origins.addP (r.directions.mulLane t)

/-- `PackedRays::update`: overwrite a lane and enable it. -/
def updateRay {n : ℕ} (r : PackedRays n) (i : Fin n) (value : Ray) : PackedRays n :=
  ⟨r.origins.updateLane i value.origin, r.directions.updateLane i value.direction,
   Function.update r.enabled i true⟩

/-- `PackedRays::update_with_enable`. -/
def update_with_enable {n : ℕ} (r : PackedRays n) (i : Fin n) (value : Ray) (enable : Bool) :
    PackedRays n :=
  ⟨r.origins.updateLane i value.origin, r.directions.updateLane i value.direction,
   Function.update r.enabled i enable⟩

/-- `PackedRays::disable`. -/
def disable {n : ℕ} (r : PackedRays n) (i : Fin n) : PackedRays n :=
  { r with enabled := Function.update r.enabled i false }

/-- `PackedRays::any_enabled`. -/
def any_enabled {n : ℕ} (r : PackedRays n) : Bool := anyLane r.enabled

end PackedRays

/-! ### `objects.rs`: the packed hit-record accumulator -/

/-- `PackedHitRecords<N>`: the per-lane closest-hit accumulator. -/
structure PackedHitRecords (n : ℕ) where
  locations : PackedPoint3 n
  normals : PackedVec3 n
  t : Fin n → F
  front_face : Fin n → Bool
  hits : Fin n → Bool
  materials : Fin n → Option Material

namespace PackedHitRecords

/-- `PackedHitRecords::default`: `t` lanes at `+inf`, no hits, no
materials. -/
def defaultRecs (n : ℕ) : PackedHitRecords n :=
  ⟨PackedVec3.zeros n, PackedVec3.zeros n, fun _ => .inf, fun _ => false, fun _ => false,
   fun _ => none⟩

/-- `PackedHitRecords::update`: fold one object's per-lane candidate
hits into the running best; the update mask is
`valid_mask & (t <= self.t)`. -/
def update {n : ℕ} (recs : PackedHitRecords n) (_rays : PackedRays n)
    (outward_normals : PackedVec3 n) (t : Fin n → F) (valid_mask : Fin n → Bool)
    (material : Material) : PackedHitRecords n :=
  let update_mask : Fin n → Bool := fun i => valid_mask i && F.le (t i) (recs.t i)
  { recs with
    normals := recs.normals.assign_masked outward_normals update_mask
    t := masked_assign recs.t t update_mask
    hits := fun i => recs.hits i || update_mask i
    materials := masked_assign recs.materials (fun _ => some material) update_mask }

/-- `PackedHitRecords::finalize`: normalize the accumulated normal,
recompute locations from the winning `t`, orient the normal against
the ray. -/
def finalize (s : ℚ → ℚ) {n : ℕ} (recs : PackedHitRecords n) (rays : PackedRays n) :
    PackedHitRecords n :=
  let normals := recs.normals.unit_vector s
  let locations := rays.at_t recs.t
  let front_face : Fin n → Bool := fun i => F.lt (rays.directions.dotP normals i) (.fin 0)
  { recs with
    normals := normals.assign_masked normals.negP (fun i => !front_face i)
    locations := locations
    front_face := front_face }

/-- `PackedHitRecords::at`: the fully resolved scalar record of a lane
that recorded a hit (the source unwraps the material reference; a hit
lane always carries one). -/
def atRec {n : ℕ} (recs : PackedHitRecords n) (i : Fin n) : Option HitRecord :=
  if recs.hits i then
    (recs.materials i).map (fun m =>
      ⟨recs.locations.atv i, recs.normals.atv i, recs.t i, recs.front_face i, m⟩)
  else none

end PackedHitRecords

/-- The lane discriminant `half_b.mul_add(half_b, -a * c)` computed by
`Sphere::hit_packed`. -/
def Sphere.packedDiscriminant {n : ℕ} (sp : Sphere) (rays : PackedRays n) (i : Fin n) : F :=
  let center_offset := rays.origins.subScalar sp.center
  let a := rays.directions.length_squared
  let half_b := center_offset.dotP rays.directions
  let c := center_offset.length_squared i - sp.radius.powi 2
  (half_b i).mulAdd (half_b i) (-(a i) * c)

/-- `Sphere::hit_packed`, translated statement-by-statement from the
source.  Note that in the source `root2_valid` is computed as
`simd_inside(&root1, t_range)` — it re-checks `root1`, not `root2`;
the commented-out earlier version of the same function checked the
reassigned root instead.  The translation preserves this behavior. -/
def Sphere.hit_packed (s : ℚ → ℚ) {n : ℕ} (sp : Sphere) (rays : PackedRays n)
    (t_range : TRange) (hit_records : PackedHitRecords n) : PackedHitRecords n :=
  let center_offset := rays.origins.subScalar sp.center
  let a := rays.directions.length_squared
  let inverse_a : Fin n → F := fun i => F.fin 1 / a i
  let half_b := center_offset.dotP rays.directions
  let discriminant : Fin n → F := fun i => sp.packedDiscriminant rays i
  let discriminant_positive : Fin n → Bool :=
    fun i => F.le (.fin 0) (discriminant i) && rays.enabled i
  if anyLane discriminant_positive then
    let neg_half_b : Fin n → F := fun i => -(half_b i)
    let sqrt_discriminant : Fin n → F := fun i => (discriminant i).sqrtW s
    let root1 : Fin n → F := fun i => (neg_half_b i - sqrt_discriminant i) * inverse_a i
    let root2 : Fin n → F := fun i => (neg_half_b i + sqrt_discriminant i) * inverse_a i
    let root1_valid := simd_inside root1 t_range
    let root2_valid := simd_inside root1 t_range
    let root := masked_select root2 root1 root1_valid
    let valid : Fin n → Bool := fun i => (root1_valid i || root2_valid i) && rays.enabled i
    let locations := rays.at_t root
    let normal := locations.subScalar sp.center
    hit_records.update rays normal root valid sp.material
  else hit_records

/-- `Object::hit_packed` dispatch. -/
def Object.hit_packed (s : ℚ → ℚ) {n : ℕ} (o : Object) (rays : PackedRays n)
    (t_range : TRange) (hit_records : PackedHitRecords n) : PackedHitRecords n :=
  match o with
  | .sphere sp => sp.hit_packed s rays t_range hit_records

/-! ### `color.rs`: packed colors

The `hit_sky` buffers of the tracers are `PackedF64Mask<N>` values
(64-bit lanes holding `u64::MAX` or `0`, read through the top bit);
they are modelled directly as boolean lanes. -/

/-- `PackedColor<N>`. -/
structure PackedColor (n : ℕ) where
  red : Fin n → F
  green : Fin n → F
  blue : Fin n → F

namespace PackedColor

/-- `PackedColor::broadcast_scaler` / `splat`. -/
def broadcast (n : ℕ) (c : Color) : PackedColor n :=
  ⟨fun _ => c.red, fun _ => c.green, fun _ => c.blue⟩

/-- `PackedColor::assign_masked`: componentwise `masked_assign`. -/
def assign_masked {n : ℕ} (a colors : PackedColor n) (mask : Fin n → Bool) : PackedColor n :=
  ⟨masked_assign a.red colors.red mask, masked_assign a.green colors.green mask,
   masked_assign a.blue colors.blue mask⟩

/-- `PackedColor::at`. -/
def atC {n : ℕ} (a : PackedColor n) (i : Fin n) : Color := ⟨a.red i, a.green i, a.blue i⟩

/-- `PackedColor::update`. -/
def updateC {n : ℕ} (a : PackedColor n) (i : Fin n) (value : Color) : PackedColor n :=
  ⟨Function.update a.red i value.red, Function.update a.green i value.green,
   Function.update a.blue i value.blue⟩

/-- Lanewise `Mul<PackedColor> for PackedColor`. -/
def mulP {n : ℕ} (a b : PackedColor n) : PackedColor n :=
  ⟨fun i => a.red i * b.red i, fun i => a.green i * b.green i, fun i => a.blue i * b.blue i⟩

/-- `Mul<Simd<f64, N>> for PackedColor`. -/
def mulLane {n : ℕ} (a : PackedColor n) (k : Fin n → F) : PackedColor n :=
  ⟨fun i => a.red i * k i, fun i => a.green i * k i, fun i => a.blue i * k i⟩

/-- Lanewise `Add<PackedColor> for PackedColor`. -/
def addP {n : ℕ} (a b : PackedColor n) : PackedColor n :=
  ⟨fun i => a.red i + b.red i, fun i => a.green i + b.green i, fun i => a.blue i + b.blue i⟩

/-- `PackedColor::sum`: each channel is summed across lanes in lane
order (`Iterator::sum` starts from `0.0`). -/
def sumC {n : ℕ} (a : PackedColor n) : Color :=
  ⟨(List.finRange n).foldl (fun acc i => acc + a.red i) (.fin 0),
   (List.finRange n).foldl (fun acc i => acc + a.green i) (.fin 0),
   (List.finRange n).foldl (fun acc i => acc + a.blue i) (.fin 0)⟩

end PackedColor

/-! ### `ray_tracing.rs`: the vectorized tracers

All three tracers run the same per-chunk bounce body: test every
object into a fresh accumulator, finalize it, then walk the lanes in
order, shading each hit lane with its material (threading the
generator) and disabling lanes that escaped to the sky. -/

/-- The per-chunk mutable state of a vectorized tracer: the ray batch,
the running color, the escaped-to-sky mask and the generator. -/
structure ChunkState (n : ℕ) where
  rays : PackedRays n
  color : PackedColor n
  hitSky : Fin n → Bool
  rng : Rng

/-- One bounce iteration of the vectorized tracers on one chunk
(the loop body shared verbatim by `trace_vectorized`,
`trace_vectorized2` and `trace_vectorized3`).  The source reads the
incoming ray of a hit lane through `rays.at(i).unwrap()`; a hit lane
is always enabled, so the unwrap is modelled by
`at_including_disabled`. -/
def bounceChunk (s : ℚ → ℚ) {n : ℕ} (objects : List Object) (st : ChunkState n) :
    ChunkState n :=
  let hit_records := objects.foldl
    (fun hr o => o.hit_packed s st.rays tRangeDefault hr) (PackedHitRecords.defaultRecs n)
  let hit_records := hit_records.finalize s st.rays
  (List.finRange n).foldl
    (fun acc i =>
      match hit_records.atRec i with
      | some hit_record =>
        let ray := acc.rays.at_including_disabled i
        let (hit_result, rng2) := hit_record.material.get_hit_result s ray hit_record acc.rng
        let color2 := acc.color.updateC i ((acc.color.atC i).mulc hit_result.attenuation)
        match hit_result.scattered_ray with
        | some r2 => { acc with rays := acc.rays.updateRay i r2, color := color2, rng := rng2 }
        | none => { acc with rays := acc.rays.disable i, color := color2, rng := rng2 }
      | none =>
        { acc with rays := acc.rays.disable i, hitSky := Function.update acc.hitSky i true })
    st

/-- The bounce loop of `Scene::trace_vectorized`: up to `depth_limit`
bounces, stopping early once no lane is enabled. -/
def traceVectorizedLoop (s : ℚ → ℚ) {n : ℕ} (objects : List Object) :
    ℕ → ChunkState n → ChunkState n
  | 0, st => st
  | d + 1, st =>
    if st.rays.any_enabled then traceVectorizedLoop s objects d (bounceChunk s objects st)
    else st

/-- The common tail of all three tracers: multiply the sky gradient
(`a = (directions.y + 1.0) * 0.5`) into the lanes that escaped to the
sky, then force lanes that are still enabled to black. -/
def applySkyChunk {n : ℕ} (dirs : PackedVec3 n) (c : PackedColor n) (hit_sky : Fin n → Bool)
    (enabled : Fin n → Bool) : PackedColor n :=
  let a : Fin n → F := fun i => (dirs.y i + F.fin 1) * F.fin (1/2)
  let sky_color_part_1 :=
    (PackedColor.broadcast n Color.white).mulLane (fun i => -(a i) + F.fin 1)
  let sky_color_part_2 :=
    (PackedColor.broadcast n (Color.new (.fin (1/2)) (.fin (7/10)) (.fin 1))).mulLane a
  let sky_color := sky_color_part_1.addP sky_color_part_2
  (c.assign_masked (c.mulP sky_color) hit_sky).assign_masked
    (PackedColor.broadcast n Color.black) enabled

/-- `Scene::trace_vectorized` (strategy 1, single fixed-width batch):
returns the per-lane colors; the caller sums lanes and divides by the
sample count. -/
def Scene.trace_vectorized (s : ℚ → ℚ) (scene : Scene) {n : ℕ} (rays : PackedRays n)
    (depth_limit : ℕ) (rng : Rng) : PackedColor n × Rng :=
  let color0 := (PackedColor.broadcast n Color.black).assign_masked
    (PackedColor.broadcast n Color.white) rays.enabled
  let st := traceVectorizedLoop s scene.objects depth_limit
    ⟨rays, color0, fun _ => false, rng⟩
  (applySkyChunk st.rays.directions st.color st.hitSky st.rays.enabled, st.rng)

/-! ### Strategies 2 and 3: chunked buffers

The `Vec`s of chunks are `List`s; indexed reads use a default chunk
that is never observed on the code paths modelled (the Rust code would
panic on an out-of-range index). -/

/-- `Vec` read. -/
def chunkGet {α : Type} (l : List α) (j : ℕ) (dflt : α) : α := l.getD j dflt

/-- `Vec` write. -/
def chunkSet {α : Type} (l : List α) (j : ℕ) (v : α) : List α := l.set j v

/-- The filler chunk `PackedRays::new(default, default)` used to size
buffer 1 of strategy 2 (note: `new` enables every lane). -/
def raysDflt (n : ℕ) : PackedRays n := PackedRays.new (PackedVec3.zeros n) (PackedVec3.zeros n)

/-- The initial all-white color chunk. -/
def colorDflt (n : ℕ) : PackedColor n := PackedColor.broadcast n Color.white

/-- The initial all-false sky mask chunk. -/
def skyDflt (n : ℕ) : Fin n → Bool := fun _ => false

/-- Lane write with a runtime slot index (always in range on the
modelled code paths). -/
def PackedRays.update_with_enableN {n : ℕ} (r : PackedRays n) (slot : ℕ) (v : Ray)
    (enable : Bool) : PackedRays n :=
  if h : slot < n then r.update_with_enable ⟨slot, h⟩ v enable else r

/-- Lane color write with a runtime slot index. -/
def PackedColor.updateCN {n : ℕ} (c : PackedColor n) (slot : ℕ) (v : Color) : PackedColor n :=
  if h : slot < n then c.updateC ⟨slot, h⟩ v else c

/-- Lane mask write with a runtime slot index. -/
def maskUpdateN {n : ℕ} (m : Fin n → Bool) (slot : ℕ) (b : Bool) : Fin n → Bool :=
  if h : slot < n then Function.update m ⟨slot, h⟩ b else m

/-- Run the per-chunk bounce body over chunks `0..last_active_chunk`
of a buffer set, threading the generator (the inner per-bounce loop of
strategies 2 and 3). -/
def bouncePhaseLists (s : ℚ → ℚ) {n : ℕ} (objects : List Object) (last_active : ℕ)
    (rl : List (PackedRays n)) (cl : List (PackedColor n)) (sl : List (Fin n → Bool))
    (rng : Rng) :
    List (PackedRays n) × List (PackedColor n) × List (Fin n → Bool) × Rng :=
  (List.range last_active).foldl
    (fun acc j =>
      let st := bounceChunk s objects
        ⟨chunkGet acc.1 j (raysDflt n), chunkGet acc.2.1 j (colorDflt n),
         chunkGet acc.2.2.1 j (skyDflt n), acc.2.2.2⟩
      (chunkSet acc.1 j st.rays, chunkSet acc.2.1 j st.color,
       chunkSet acc.2.2.1 j st.hitSky, st.rng))
    (rl, cl, sl, rng)

/-- The double-buffer state of `trace_vectorized2`:
`ray_buffers`, `color`, `hit_sky`, each a ping-pong pair of chunk
vectors indexed by `selector = k % 2`. -/
structure V2Bufs (n : ℕ) where
  rays0 : List (PackedRays n)
  rays1 : List (PackedRays n)
  color0 : List (PackedColor n)
  color1 : List (PackedColor n)
  sky0 : List (Fin n → Bool)
  sky1 : List (Fin n → Bool)

namespace V2Bufs

/-- `ray_buffers[selector]`. -/
def getRays {n : ℕ} (b : V2Bufs n) (sel : ℕ) : List (PackedRays n) :=
  if sel % 2 = 0 then b.rays0 else b.rays1

/-- `color[selector]`. -/
def getColor {n : ℕ} (b : V2Bufs n) (sel : ℕ) : List (PackedColor n) :=
  if sel % 2 = 0 then b.color0 else b.color1

/-- `hit_sky[selector]`. -/
def getSky {n : ℕ} (b : V2Bufs n) (sel : ℕ) : List (Fin n → Bool) :=
  if sel % 2 = 0 then b.sky0 else b.sky1

/-- Replace `ray_buffers[selector]`. -/
def setRays {n : ℕ} (b : V2Bufs n) (sel : ℕ) (v : List (PackedRays n)) : V2Bufs n :=
  if sel % 2 = 0 then { b with rays0 := v } else { b with rays1 := v }

/-- Replace `color[selector]`. -/
def setColor {n : ℕ} (b : V2Bufs n) (sel : ℕ) (v : List (PackedColor n)) : V2Bufs n :=
  if sel % 2 = 0 then { b with color0 := v } else { b with color1 := v }

/-- Replace `hit_sky[selector]`. -/
def setSky {n : ℕ} (b : V2Bufs n) (sel : ℕ) (v : List (Fin n → Bool)) : V2Bufs n :=
  if sel % 2 = 0 then { b with sky0 := v } else { b with sky1 := v }

end V2Bufs

/-- The output-cursor advance of the compaction shuffle:
`output_slot += 1; if output_slot >= N { output_slot = 0; output_chunk += 1 }`. -/
def advanceCursor (n : ℕ) (chunk slot : ℕ) : ℕ × ℕ :=
  if slot + 1 ≥ n then (chunk + 1, 0) else (chunk, slot + 1)

/-- Copy one lane (ray with its enable flag, color, sky flag) into the
destination buffer set at the output cursor. -/
def v2CopyLane {n : ℕ} (bufs : V2Bufs n) (nsel oc os : ℕ) (ray : Ray) (enable : Bool)
    (c : Color) (sky : Bool) : V2Bufs n :=
  let rl := bufs.getRays nsel
  let rl2 := chunkSet rl oc ((chunkGet rl oc (raysDflt n)).update_with_enableN os ray enable)
  let cl := bufs.getColor nsel
  let cl2 := chunkSet cl oc ((chunkGet cl oc (colorDflt n)).updateCN os c)
  let sl := bufs.getSky nsel
  let sl2 := chunkSet sl oc (maskUpdateN (chunkGet sl oc (skyDflt n)) os sky)
  ((bufs.setRays nsel rl2).setColor nsel cl2).setSky nsel sl2

/-- The first shuffle loop of `trace_vectorized2`: copy every still
enabled lane of the source buffer to the front of the destination
buffer. -/
def v2ShuffleEnabled {n : ℕ} (sel last_active : ℕ) (bufs : V2Bufs n) : V2Bufs n × ℕ × ℕ :=
  (List.range last_active).foldl
    (fun acc i =>
      (List.finRange n).foldl
        (fun (acc2 : V2Bufs n × ℕ × ℕ) j =>
          match (chunkGet (acc2.1.getRays sel) i (raysDflt n)).atR j with
          | some ray =>
            let bufs2 := v2CopyLane acc2.1 (1 - sel % 2) acc2.2.1 acc2.2.2 ray true
              ((chunkGet (acc2.1.getColor sel) i (colorDflt n)).atC j)
              (chunkGet (acc2.1.getSky sel) i (skyDflt n) j)
            let cur := advanceCursor n acc2.2.1 acc2.2.2
            (bufs2, cur.1, cur.2)
          | none => acc2)
        acc)
    (bufs, 0, 0)

/-- The second shuffle loop of `trace_vectorized2`: append every
disabled lane after the enabled ones, keeping its data but leaving it
disabled. -/
def v2ShuffleDisabled {n : ℕ} (sel last_active : ℕ) (st : V2Bufs n × ℕ × ℕ) :
    V2Bufs n × ℕ × ℕ :=
  (List.range last_active).foldl
    (fun acc i =>
      (List.finRange n).foldl
        (fun (acc2 : V2Bufs n × ℕ × ℕ) j =>
          if (chunkGet (acc2.1.getRays sel) i (raysDflt n)).is_enabled j then acc2
          else
            let ray := (chunkGet (acc2.1.getRays sel) i (raysDflt n)).at_including_disabled j
            let bufs2 := v2CopyLane acc2.1 (1 - sel % 2) acc2.2.1 acc2.2.2 ray false
              ((chunkGet (acc2.1.getColor sel) i (colorDflt n)).atC j)
              (chunkGet (acc2.1.getSky sel) i (skyDflt n) j)
            let cur := advanceCursor n acc2.2.1 acc2.2.2
            (bufs2, cur.1, cur.2))
        acc)
    st

/-- The bounce/shuffle loop of `trace_vectorized2`: at step `k` the
source buffer is `selector = k % 2`; after the bounce the live lanes
are compacted into buffer `1 - selector` and `last_active_chunk`
shrinks accordingly. -/
def traceVectorized2Loop (s : ℚ → ℚ) {n : ℕ} (objects : List Object) :
    ℕ → ℕ → ℕ → V2Bufs n → Rng → V2Bufs n × ℕ × Rng
  | 0, _, la, bufs, rng => (bufs, la, rng)
  | remaining + 1, k, la, bufs, rng =>
    if la = 0 then (bufs, la, rng)
    else
      let sel := k % 2
      let (rl, cl, sl, rng1) :=
        bouncePhaseLists s objects la (bufs.getRays sel) (bufs.getColor sel)
          (bufs.getSky sel) rng
      let bufs1 := ((bufs.setRays sel rl).setColor sel cl).setSky sel sl
      let st1 := v2ShuffleEnabled sel la bufs1
      let newLa := if st1.2.2 = 0 then st1.2.1 else st1.2.1 + 1
      let st2 := v2ShuffleDisabled sel la st1
      traceVectorized2Loop s objects remaining (k + 1) newLa st2.1 rng1

/-- `Scene::trace_vectorized2` (strategy 2, double-buffer compaction).
After the loop the final buffer is chosen by `(rays.len() - 1) % 2`,
and the sky gradient is computed from the directions of the
*original input* ray chunks. -/
def Scene.trace_vectorized2 (s : ℚ → ℚ) (scene : Scene) {n : ℕ}
    (rays : List (PackedRays n)) (depth_limit : ℕ) (rng : Rng) : Color × Rng :=
  let len := rays.length
  let bufs0 : V2Bufs n :=
    ⟨rays, List.replicate len (raysDflt n),
     List.replicate len (colorDflt n), List.replicate len (colorDflt n),
     List.replicate len (skyDflt n), List.replicate len (skyDflt n)⟩
  let res := traceVectorized2Loop s scene.objects depth_limit 0 len bufs0 rng
  let bufs := res.1
  let rng2 := res.2.2
  let sel := (len - 1) % 2
  let colorFinal := (List.range len).foldl
    (fun cl j =>
      let cj := applySkyChunk (chunkGet rays j (raysDflt n)).directions
        (chunkGet cl j (colorDflt n)) (chunkGet (bufs.getSky sel) j (skyDflt n))
        (chunkGet (bufs.getRays sel) j (raysDflt n)).enabled
      chunkSet cl j cj)
    (bufs.getColor sel)
  let sum_color := colorFinal.foldl (fun acc c => acc.addP c) (PackedColor.broadcast n Color.black)
  (sum_color.sumC, rng2)

/-! ### Strategy 3: in-place two-pointer partition -/

/-- `CombinedIndex<N>`: a (chunk, slot) cursor over the flattened lane
space; `slot_index = N` encodes the before-first sentinel. -/
structure CombinedIndex where
  chuck_index : ℕ
  slot_index : ℕ
deriving DecidableEq, Repr

namespace CombinedIndex

/-- `CombinedIndex::before_first`. -/
def before_first (n : ℕ) : CombinedIndex := ⟨0, n⟩

/-- `CombinedIndex::after_last`. -/
def after_last (numChunks : ℕ) : CombinedIndex := ⟨numChunks, 0⟩

/-- `CombinedIndex::increment`. -/
def increment (n numChunks : ℕ) (ci : CombinedIndex) : Option CombinedIndex :=
  if ci.slot_index ≥ n then
    if numChunks > 0 then some ⟨0, 0⟩ else none
  else if ci.slot_index < n - 1 then some ⟨ci.chuck_index, ci.slot_index + 1⟩
  else if ci.chuck_index < numChunks - 1 then some ⟨ci.chuck_index + 1, 0⟩
  else none

/-- `CombinedIndex::decrement`. -/
def decrement (n : ℕ) (ci : CombinedIndex) : Option CombinedIndex :=
  if ci.slot_index > 0 then some ⟨ci.chuck_index, ci.slot_index - 1⟩
  else if ci.chuck_index > 0 then some ⟨ci.chuck_index - 1, n - 1⟩
  else none

end CombinedIndex

/-- `rays[ci.chuck_index].is_enabled(ci.slot_index)`. -/
def laneEnabled {n : ℕ} (rays : List (PackedRays n)) (ci : CombinedIndex) : Bool :=
  if h : ci.slot_index < n then
    (chunkGet rays ci.chuck_index (raysDflt n)).enabled ⟨ci.slot_index, h⟩
  else false

/-- The scan inside `CombinedIndex::next_disabled`; the fuel bounds the
number of increments, which never exceeds the flattened lane count. -/
def nextDisabledAux {n : ℕ} (rays : List (PackedRays n)) :
    ℕ → Option CombinedIndex → Option CombinedIndex
  | 0, _ => none
  | _ + 1, none => none
  | fuel + 1, some ci =>
    if !laneEnabled rays ci then some ci
    else nextDisabledAux rays fuel (ci.increment n rays.length)

/-- `CombinedIndex::next_disabled`. -/
def CombinedIndex.next_disabled {n : ℕ} (rays : List (PackedRays n)) (ci : CombinedIndex) :
    Option CombinedIndex :=
  nextDisabledAux rays (rays.length * n + 2) (ci.increment n rays.length)

/-- The scan inside `CombinedIndex::previous_enabled`. -/
def prevEnabledAux {n : ℕ} (rays : List (PackedRays n)) :
    ℕ → Option CombinedIndex → Option CombinedIndex
  | 0, _ => none
  | _ + 1, none => none
  | fuel + 1, some ci =>
    if laneEnabled rays ci then some ci
    else prevEnabledAux rays fuel (ci.decrement n)

/-- `CombinedIndex::previous_enabled`. -/
def CombinedIndex.previous_enabled {n : ℕ} (rays : List (PackedRays n)) (ci : CombinedIndex) :
    Option CombinedIndex :=
  prevEnabledAux rays (rays.length * n + 2) (ci.decrement n)

/-- The in-place buffer set of `trace_vectorized3`. -/
structure V3Bufs (n : ℕ) where
  rays : List (PackedRays n)
  color : List (PackedColor n)
  sky : List (Fin n → Bool)

/-- Read the ray at a combined index (including disabled lanes). -/
def rayAtCI {n : ℕ} (rays : List (PackedRays n)) (ci : CombinedIndex) : Ray :=
  if h : ci.slot_index < n then
    (chunkGet rays ci.chuck_index (raysDflt n)).at_including_disabled ⟨ci.slot_index, h⟩
  else ⟨Vec3.zero, Vec3.zero⟩

/-- Write the ray (and enable flag) at a combined index. -/
def raySetCI {n : ℕ} (rays : List (PackedRays n)) (ci : CombinedIndex) (v : Ray)
    (enable : Bool) : List (PackedRays n) :=
  chunkSet rays ci.chuck_index
    ((chunkGet rays ci.chuck_index (raysDflt n)).update_with_enableN ci.slot_index v enable)

/-- Read the color lane at a combined index. -/
def colorAtCI {n : ℕ} (cl : List (PackedColor n)) (ci : CombinedIndex) : Color :=
  if h : ci.slot_index < n then (chunkGet cl ci.chuck_index (colorDflt n)).atC ⟨ci.slot_index, h⟩
  else Color.black

/-- Write the color lane at a combined index. -/
def colorSetCI {n : ℕ} (cl : List (PackedColor n)) (ci : CombinedIndex) (v : Color) :
    List (PackedColor n) :=
  chunkSet cl ci.chuck_index ((chunkGet cl ci.chuck_index (colorDflt n)).updateCN ci.slot_index v)

/-- Read the sky flag at a combined index. -/
def skyAtCI {n : ℕ} (sl : List (Fin n → Bool)) (ci : CombinedIndex) : Bool :=
  if h : ci.slot_index < n then chunkGet sl ci.chuck_index (skyDflt n) ⟨ci.slot_index, h⟩
  else false

/-- Write the sky flag at a combined index. -/
def skySetCI {n : ℕ} (sl : List (Fin n → Bool)) (ci : CombinedIndex) (b : Bool) :
    List (Fin n → Bool) :=
  chunkSet sl ci.chuck_index (maskUpdateN (chunkGet sl ci.chuck_index (skyDflt n)) ci.slot_index b)

/-- The two-pointer partition loop of `trace_vectorized3`: find the
next disabled lane from the front and the previous enabled lane from
the back, stop when the cursors meet (setting `last_active_chunk`),
else swap the two lanes.  Each iteration strictly advances both
cursors, so the flattened lane count bounds the iterations; the fuel
handed in by the caller covers it. -/
def v3PartitionLoop {n : ℕ} :
    ℕ → V3Bufs n → CombinedIndex → CombinedIndex → V3Bufs n × ℕ
  | 0, st, _, _ => (st, st.rays.length)
  | fuel + 1, st, front, back =>
    match CombinedIndex.next_disabled st.rays front with
    | none => (st, st.rays.length)
    | some f2 =>
      match CombinedIndex.previous_enabled st.rays back with
      | none => (st, 0)
      | some b2 =>
        if f2.chuck_index ≥ b2.chuck_index then (st, b2.chuck_index + 1)
        else
          let front_ray := rayAtCI st.rays f2
          let back_ray := rayAtCI st.rays b2
          let rays2 := raySetCI (raySetCI st.rays f2 back_ray true) b2 front_ray false
          let front_color := colorAtCI st.color f2
          let back_color := colorAtCI st.color b2
          let color2 := colorSetCI (colorSetCI st.color f2 back_color) b2 front_color
          let front_sky := skyAtCI st.sky f2
          let back_sky := skyAtCI st.sky b2
          let sky2 := skySetCI (skySetCI st.sky f2 back_sky) b2 front_sky
          v3PartitionLoop fuel ⟨rays2, color2, sky2⟩ f2 b2

/-- The bounce/partition loop of `trace_vectorized3`. -/
def traceVectorized3Loop (s : ℚ → ℚ) {n : ℕ} (objects : List Object) :
    ℕ → ℕ → V3Bufs n → Rng → V3Bufs n × ℕ × Rng
  | 0, la, st, rng => (st, la, rng)
  | remaining + 1, la, st, rng =>
    if la = 0 then (st, la, rng)
    else
      let (rl, cl, sl, rng2) := bouncePhaseLists s objects la st.rays st.color st.sky rng
      let parted := v3PartitionLoop (rl.length * n + 1) ⟨rl, cl, sl⟩
        (CombinedIndex.before_first n) (CombinedIndex.after_last rl.length)
      traceVectorized3Loop s objects remaining parted.2 parted.1 rng2

/-- `Scene::trace_vectorized3` (strategy 3, in-place two-pointer
compaction).  The final sky gradient reads the *mutated* ray buffer,
whose swaps moved each escaped lane's data consistently. -/
def Scene.trace_vectorized3 (s : ℚ → ℚ) (scene : Scene) {n : ℕ}
    (rays : List (PackedRays n)) (depth_limit : ℕ) (rng : Rng) : Color × Rng :=
  let len := rays.length
  let st0 : V3Bufs n := ⟨rays, List.replicate len (colorDflt n), List.replicate len (skyDflt n)⟩
  let res := traceVectorized3Loop s scene.objects depth_limit len st0 rng
  let st := res.1
  let rng2 := res.2.2
  let colorFinal := (List.range len).foldl
    (fun cl j =>
      let cj := applySkyChunk (chunkGet st.rays j (raysDflt n)).directions
        (chunkGet cl j (colorDflt n)) (chunkGet st.sky j (skyDflt n))
        (chunkGet st.rays j (raysDflt n)).enabled
      chunkSet cl j cj)
    st.color
  let sum_color := colorFinal.foldl (fun acc c => acc.addP c) (PackedColor.broadcast n Color.black)
  (sum_color.sumC, rng2)

/-! ### Projections and auxiliary definitions used by the statements -/

/-- All six per-lane fields of an accumulator, for stating that a lane
is left untouched. -/
def PackedHitRecords.lane {n : ℕ} (recs : PackedHitRecords n) (i : Fin n) :
    Vec3 × Vec3 × F × Bool × Bool × Option Material :=
  (recs.locations.atv i, recs.normals.atv i, recs.t i, recs.front_face i, recs.hits i,
   recs.materials i)

/-- The argument tuple of one `PackedHitRecords::update` call. -/
structure UpdateArgs (n : ℕ) where
  rays : PackedRays n
  outward_normals : PackedVec3 n
  t : Fin n → F
  valid_mask : Fin n → Bool
  material : Material

/-- Fold a sequence of `update` calls (one per object tested) into an
accumulator. -/
def applyUpdates {n : ℕ} (recs : PackedHitRecords n) (us : List (UpdateArgs n)) :
    PackedHitRecords n :=
  us.foldl (fun r u => r.update u.rays u.outward_normals u.t u.valid_mask u.material) recs

/-- Whether any update of the sequence fires its update mask at lane
`i` (i.e. the lane's `t` gets overwritten at some point). -/
def laneTouched {n : ℕ} (recs : PackedHitRecords n) (us : List (UpdateArgs n)) (i : Fin n) :
    Bool :=
  match us with
  | [] => false
  | u :: rest =>
    (u.valid_mask i && F.le (u.t i) (recs.t i))
      || laneTouched (recs.update u.rays u.outward_normals u.t u.valid_mask u.material) rest i

/-! ### Concrete instances used by the evaluation theorems -/

/-- A unit sphere at the origin (lambertian white). -/
def sphereA : Sphere := ⟨Vec3.zero, F.fin 1, .lambertian Color.white⟩

/-- A ray starting at the sphere's center: its near root `-1` is out of
range, its far root `1` is in range. -/
def rayA : Ray := ⟨Vec3.zero, ⟨F.fin 0, F.fin 0, F.fin 1⟩⟩

/-- The same ray as a one-lane batch. -/
def raysA : PackedRays 1 :=
  ⟨PackedVec3.splat 1 Vec3.zero, PackedVec3.splat 1 ⟨F.fin 0, F.fin 0, F.fin 1⟩, fun _ => true⟩

/-- A perfectly reflective metal (white albedo, zero fuzz). -/
def mtlMetalW : Material := .metal Color.white (F.fin 0)

/-- A unit metal sphere at `(0, 3/5, -2)`: a ray from the origin along
`-z` hits it at `t = 6/5` and reflects to direction `(0, -24/25, 7/25)`,
which then escapes to the sky. -/
def sphereB : Sphere := ⟨⟨F.fin 0, F.fin (3/5), F.fin (-2)⟩, F.fin 1, mtlMetalW⟩

/-- A deterministic generator state (constant draws; the zero-fuzz
metal multiplies the draw by zero, so the outputs do not depend on it). -/
def rngC : Rng := ⟨fun _ => ⟨F.fin 0, F.fin 0, F.fin 1⟩, fun _ => 0, 0, 0⟩

/-- The one-sphere scene of the tracer-equivalence counterexample. -/
def sceneB : Scene := ⟨[.sphere sphereB]⟩

/-- One enabled lane aimed straight down `-z` from the origin. -/
def raysB : PackedRays 1 :=
  ⟨PackedVec3.splat 1 Vec3.zero, PackedVec3.splat 1 ⟨F.fin 0, F.fin 0, F.fin (-1)⟩,
   fun _ => true⟩

/-- A ray whose discriminant against `sphereA` is negative
(origin `(0,0,5)`, direction `(1,0,0)`: discriminant `-24`). -/
def rayMiss : Ray := ⟨⟨F.fin 0, F.fin 0, F.fin 5⟩, ⟨F.fin 1, F.fin 0, F.fin 0⟩⟩

/-- The same missing ray as a one-lane batch. -/
def raysMiss : PackedRays 1 :=
  ⟨PackedVec3.splat 1 ⟨F.fin 0, F.fin 0, F.fin 5⟩, PackedVec3.splat 1 ⟨F.fin 1, F.fin 0, F.fin 0⟩,
   fun _ => true⟩

/-- A ray with a zero-length direction. -/
def rayZeroDir : Ray := ⟨⟨F.fin 0, F.fin 0, F.fin 5⟩, Vec3.zero⟩

/-- The zero-direction ray as a one-lane batch. -/
def raysZeroDir : PackedRays 1 :=
  ⟨PackedVec3.splat 1 ⟨F.fin 0, F.fin 0, F.fin 5⟩, PackedVec3.splat 1 Vec3.zero, fun _ => true⟩

/-- A three-update sequence for the accumulator witness: a hit at
`t = 3`, then two tied hits at `t = 2` with different materials (the
later one must win). -/
def updatesW : List (UpdateArgs 1) :=
  [⟨raysA, PackedVec3.zeros 1, fun _ => .fin 3, fun _ => true, .lambertian Color.white⟩,
   ⟨raysA, PackedVec3.zeros 1, fun _ => .fin 2, fun _ => true, .lambertian Color.black⟩,
   ⟨raysA, PackedVec3.zeros 1, fun _ => .fin 2, fun _ => true, mtlMetalW⟩]

/-- A one-lane accumulator holding an un-normalized normal `(0,0,1)`
and `t = 1`, used as the finalize witness together with `raysA`
(whose direction `(0,0,1)` hits the back face). -/
def recsW : PackedHitRecords 1 :=
  { PackedHitRecords.defaultRecs 1 with
    normals := PackedVec3.splat 1 ⟨F.fin 0, F.fin 0, F.fin 1⟩
    t := fun _ => F.fin 1 }

/-! ## Theorems -/

/-! ### Order lemmas for the double model -/

theorem F.leTrans : ∀ {a b c : F}, le a b = true → le b c = true → le a c = true := by
  intro a b c h1 h2
  cases a <;> cases b <;> cases c <;> simp_all [le]
  exact le_trans h1 h2

theorem F.leNotNanLeft : ∀ {a b : F}, le a b = true → a ≠ nan := by
  intro a b h
  cases a <;> cases b <;> simp_all [le]

theorem F.leReflOfNeNan : ∀ {a : F}, a ≠ nan → le a a = true := by
  intro a h
  cases a <;> simp_all [le]

theorem F.leTotalOfFin : ∀ {a b : ℚ}, le (fin a) (fin b) = false → le (fin b) (fin a) = true := by
  intro a b h
  simp_all [le]
  exact h.le

/-- A value actually contained in `0.001..inf` is finite. -/
theorem containsF_default_fin {x : F} (h : tRangeDefault.containsF x = true) :
    ∃ q : ℚ, x = F.fin q := by
  cases x <;> simp_all [TRange.containsF, tRangeDefault, F.le, F.lt]

/-- Dividing any double by (positive) zero never lands in `0.001..inf`. -/
theorem containsF_default_div_zero (x : F) :
    tRangeDefault.containsF (x / F.fin 0) = false := by
  have h : ∀ q : ℚ, tRangeDefault.containsF (F.divFin q 0) = false := by
    intro q
    simp only [F.divFin]
    split_ifs <;> simp [TRange.containsF, tRangeDefault, F.le, F.lt]
  cases x with
  | fin q => exact h q
  | inf => with_unfolding_all decide
  | ninf => with_unfolding_all decide
  | nan => rfl

/-- Multiplying any double by `+inf` never lands in `0.001..inf`. -/
theorem containsF_default_mul_inf (x : F) :
    tRangeDefault.containsF (x * F.inf) = false := by
  have h : ∀ q : ℚ, tRangeDefault.containsF (F.mulSignInf q) = false := by
    intro q
    simp only [F.mulSignInf]
    split_ifs <;> simp [TRange.containsF, tRangeDefault, F.le, F.lt]
  cases x with
  | fin q => exact h q
  | inf => with_unfolding_all decide
  | ninf => with_unfolding_all decide
  | nan => rfl

/-- NaN is not in `0.001..inf`. -/
theorem containsF_default_nan : tRangeDefault.containsF F.nan = false := rfl

theorem F.addNanRight (x : F) : x + F.nan = F.nan := by cases x <;> rfl

theorem F.subNanRight (x : F) : x - F.nan = F.nan := by cases x <;> rfl

theorem F.nanMulLeft (x : F) : F.nan * x = F.nan := by cases x <;> rfl

/-- The square root of a (strictly) negative double is NaN. -/
theorem F.sqrtWNanOfNeg {s : ℚ → ℚ} {d : F} (h : F.lt d (F.fin 0) = true) :
    d.sqrtW s = F.nan := by
  cases d <;> simp_all [F.lt, F.sqrtW]

theorem F.negDef (x : F) : -x = x.neg := rfl

theorem F.mulDef (x y : F) : x * y = x.mul y := rfl

theorem F.addDef (x y : F) : x + y = x.add y := rfl

theorem F.negNeg (x : F) : x.neg.neg = x := by cases x <;> simp [F.neg]

theorem F.mulSignInfNeg (b : ℚ) : mulSignInf (-b) = (mulSignInf b).neg := by
  simp only [mulSignInf, neg_eq_zero]
  rcases lt_trichotomy b 0 with h | h | h
  · rw [if_neg h.ne, if_pos (by linarith), if_neg h.ne, if_neg (by linarith)]
    rfl
  · subst h
    simp [F.neg]
  · rw [if_neg h.ne', if_neg (by linarith), if_neg h.ne', if_pos h]
    rfl

theorem F.mulNegRight (x y : F) : x.mul y.neg = (x.mul y).neg := by
  cases x <;> cases y <;>
    first
      | rfl
      | exact (F.negNeg _).symm
      | exact F.mulSignInfNeg _
      | exact congrArg F.neg (F.mulSignInfNeg _)
      | simp [F.neg, F.mul, mul_neg]

theorem F.addNegNeg (x y : F) : x.neg.add y.neg = (x.add y).neg := by
  cases x <;> cases y <;>
    first
      | rfl
      | (simp only [F.neg, F.add]; exact congrArg F.fin (by ring))

theorem F.mulAddNegNeg (a b c : F) : a.mulAdd b.neg c.neg = (a.mulAdd b c).neg := by
  simp only [F.mulAdd, F.mulNegRight, F.addNegNeg]

/-- A lane whose update mask is clear keeps all six of its fields
through `PackedHitRecords::update`. -/
theorem PackedHitRecords.update_lane_frame {n : ℕ} (recs : PackedHitRecords n)
    (rays : PackedRays n) (onorm : PackedVec3 n) (t : Fin n → F) (valid : Fin n → Bool)
    (mat : Material) (i : Fin n)
    (h : (valid i && F.le (t i) (recs.t i)) = false) :
    (recs.update rays onorm t valid mat).lane i = recs.lane i := by
  simp [PackedHitRecords.update, PackedHitRecords.lane, PackedVec3.assign_masked,
    masked_assign, masked_select, PackedVec3.atv, h]

/-! ### C5: masked select / assign -/

/-- C5: for every packed value, replacement and mask, lane `i` of the
masked assignment is the replacement's lane exactly when the mask is
set and the unchanged prior value otherwise; this holds for the
portable `mask.select` fallback, for the AVX2 `blendv` sign-bit path,
and componentwise for `PackedVec3::assign_masked`. -/
theorem claim_C5_masked_assign {n : ℕ} (base other : Fin n → F) (mask : Fin n → Bool)
    (v w : PackedVec3 n) (i : Fin n) :
    (masked_assign base other mask i = if mask i then other i else base i)
    ∧ (maskedSelectBlendv base other (maskToInt mask) i = if mask i then other i else base i)
    ∧ ((v.assign_masked w mask).x i = (if mask i then w.x i else v.x i)
        ∧ (v.assign_masked w mask).y i = (if mask i then w.y i else v.y i)
        ∧ (v.assign_masked w mask).z i = (if mask i then w.z i else v.z i)) := by
  refine ⟨rfl, ?_, rfl, rfl, rfl⟩
  by_cases h : mask i <;> simp [maskedSelectBlendv, maskToInt, h]

/-! ### C4: finalize -/

/-- C4: after `finalize(rays)`, each lane's location is
`origin + direction * t` at the stored `t`, the front-face flag is
`direction · normalized-normal < 0`, the stored normal is the
unit-normalized accumulated normal, negated exactly on the lanes whose
front-face flag is false, and consequently (whenever the dot product is
a finite number) the final normal points against the incoming ray. -/
theorem claim_C4_finalize {n : ℕ} (s : ℚ → ℚ) (recs : PackedHitRecords n)
    (rays : PackedRays n) (i : Fin n) :
    ((recs.finalize s rays).locations.atv i
        = (rays.origins.atv i).add ((rays.directions.atv i).smul (recs.t i)))
    ∧ ((recs.finalize s rays).t i = recs.t i)
    ∧ ((recs.finalize s rays).front_face i
        = F.lt (rays.directions.dotP (recs.normals.unit_vector s) i) (F.fin 0))
    ∧ ((recs.finalize s rays).normals.atv i
        = if (recs.finalize s rays).front_face i
          then (recs.normals.unit_vector s).atv i
          else ((recs.normals.unit_vector s).negP).atv i)
    ∧ (∀ q : ℚ, rays.directions.dotP (recs.normals.unit_vector s) i = F.fin q →
        F.le (rays.directions.dotP (recs.finalize s rays).normals i) (F.fin 0) = true) := by
  refine ⟨rfl, rfl, rfl, ?_, ?_⟩
  · by_cases h : F.lt (rays.directions.dotP (recs.normals.unit_vector s) i) (F.fin 0) <;>
      simp [PackedHitRecords.finalize, PackedVec3.assign_masked, masked_assign, masked_select,
        PackedVec3.atv, PackedVec3.negP, h]
  · intro q hq
    by_cases hff : F.lt (rays.directions.dotP (recs.normals.unit_vector s) i) (F.fin 0) = true
    · have hff2 := hff
      simp only [PackedVec3.dotP] at hff2
      have hdot : rays.directions.dotP (recs.finalize s rays).normals i
          = rays.directions.dotP (recs.normals.unit_vector s) i := by
        simp [PackedHitRecords.finalize, PackedVec3.assign_masked, masked_assign,
          masked_select, PackedVec3.dotP, hff2]
      rw [hdot, hq]
      rw [hq] at hff
      simp only [F.lt, decide_eq_true_eq] at hff
      simp only [F.le, decide_eq_true_eq]
      linarith
    · have hff' : F.lt (rays.directions.dotP (recs.normals.unit_vector s) i) (F.fin 0)
          = false := by simpa using hff
      have hff2 := hff'
      simp only [PackedVec3.dotP] at hff2
      have hdot : rays.directions.dotP (recs.finalize s rays).normals i
          = (rays.directions.dotP (recs.normals.unit_vector s) i).neg := by
        simp only [PackedHitRecords.finalize, PackedVec3.assign_masked, masked_assign,
          masked_select, PackedVec3.dotP, PackedVec3.negP, hff2, Bool.not_false, if_true]
        simp only [F.negDef, F.mulDef, F.mulNegRight, F.mulAddNegNeg]
      rw [hdot, hq]
      rw [hq] at hff'
      simp only [F.lt, decide_eq_false_iff_not] at hff'
      simp only [F.neg, F.le, decide_eq_true_eq]
      linarith

/-- Witness for C4: a back-face lane (`direction · normal = 1`) gets
its normal flipped and the final dot product is non-positive. -/
theorem claim_C4_finalize_witness :
    F.le (raysA.directions.dotP (recsW.finalize ratSqrt raysA).normals 0) (F.fin 0) = true :=
  (claim_C4_finalize ratSqrt recsW raysA 0).2.2.2.2 1 (by with_unfolding_all decide)

/-! ### C7: zero bounce budget -/

/-- C7: with `depth_limit = 0`, `Scene::trace` returns exactly
`Color::black()` for every scene and ray, and evaluates no
single-object intersection test. -/
theorem claim_C7_trace_depth_zero (s : ℚ → ℚ) (scene : Scene) (ray : Ray) (rng : Rng) :
    (scene.trace s ray 0 rng).1 = Color.black
    ∧ scene.traceTestCount s ray 0 rng = 0 :=
  ⟨rfl, rfl⟩

/-! ### C8: materials always scatter -/

/-- C8: every one of the three material kinds returns a `HitResult`
whose scattered ray is `Some`, whatever the hit, incoming ray and
random draws. -/
theorem claim_C8_materials_always_scatter (s : ℚ → ℚ) (m : Material) (ray : Ray)
    (hit_record : HitRecord) (rng : Rng) :
    ((m.get_hit_result s ray hit_record rng).1).scattered_ray.isSome = true := by
  cases m with
  | lambertian albedo => simp [Material.get_hit_result, randomUnitVector]
  | metal albedo fuzzy_factor => simp [Material.get_hit_result, randomUnitVector]
  | dielectric index_of_refraction hollow =>
    simp only [Material.get_hit_result]
    split_ifs <;> simp [uniformDraw]

/-! ### C1: far-root selection in the packed hit test -/

/-- C1 (divergence): for the unit sphere at the origin and a ray from
its center, the near root `-1` is out of range and the far root `1` is
in range.  `Sphere::hit` reports the hit at the far root, but
`Sphere::hit_packed` records no hit for the lane, because its
`root2_valid` re-checks `root1` instead of `root2`. -/
theorem claim_C1_farRootDivergence :
    ((sphereA.hit ratSqrt rayA tRangeDefault).map (fun h => h.t) = some (F.fin 1))
    ∧ ((sphereA.hit_packed ratSqrt raysA tRangeDefault (PackedHitRecords.defaultRecs 1)).hits 0
        = false) := by
  with_unfolding_all decide

/-! ### C2: the three vectorized tracers disagree -/

set_option maxRecDepth 400000 in
/-- C2 (divergence): one lane, one chunk, two bounces against the
metal sphere `sphereB`.  The single-batch and in-place tracers agree:
the lane reflects, escapes, and receives the sky gradient of the
*reflected* direction, `(0.99, 0.994, 1)`.  The double-buffer tracer
applies the sky gradient of the *original input* direction instead and
returns `(0.75, 0.85, 1)`.  All three results are lane sums over one
sample, so the per-pixel averages differ identically. -/
theorem claim_C2_strategy2_divergence :
    (((sceneB.trace_vectorized ratSqrt raysB 2 rngC).1).sumC
        = (sceneB.trace_vectorized3 ratSqrt [raysB] 2 rngC).1)
    ∧ (((sceneB.trace_vectorized ratSqrt raysB 2 rngC).1).sumC
        = ⟨F.fin (99/100), F.fin (497/500), F.fin 1⟩)
    ∧ ((sceneB.trace_vectorized2 ratSqrt [raysB] 2 rngC).1
        = ⟨F.fin (3/4), F.fin (17/20), F.fin 1⟩)
    ∧ ((sceneB.trace_vectorized2 ratSqrt [raysB] 2 rngC).1
        ≠ ((sceneB.trace_vectorized ratSqrt raysB 2 rngC).1).sumC) := by
  with_unfolding_all decide

/-! ### C6: pixel conversion -/

/-- C6: `to_u8_array` on a color whose channels are all at most `2.0`
returns the bytes `(sqrt(channel) * 255.999) as u8` (a saturating,
truncating cast); in particular white maps to `(255,255,255)` and
black to `(0,0,0)` (given that the square root fixes `1` and `0`), and
a red channel exceeding `2.0` trips the assertion instead of producing
output. -/
theorem claim_C6_to_u8_array (s : ℚ → ℚ) (c : Color)
    (hr : F.le c.red (F.fin 2) = true) (hg : F.le c.green (F.fin 2) = true)
    (hb : F.le c.blue (F.fin 2) = true) (h1 : s 1 = 1) (h0 : s 0 = 0) :
    (c.to_u8_array s = some
      (Color.f64AsU8 (c.red.sqrtW s * F.fin (255999/1000)),
       Color.f64AsU8 (c.green.sqrtW s * F.fin (255999/1000)),
       Color.f64AsU8 (c.blue.sqrtW s * F.fin (255999/1000))))
    ∧ Color.white.to_u8_array s = some (255, 255, 255)
    ∧ Color.black.to_u8_array s = some (0, 0, 0)
    ∧ (∀ d : Color, F.lt (F.fin 2) d.red = true → d.to_u8_array s = none) := by
  refine ⟨by simp [Color.to_u8_array, hr, hg, hb], ?_, ?_, ?_⟩
  · have e1 : (F.fin 1).sqrtW s = F.fin 1 := by norm_num [F.sqrtW, h1]
    simp only [Color.to_u8_array, Color.white, e1]
    with_unfolding_all decide
  · have e0 : (F.fin 0).sqrtW s = F.fin 0 := by norm_num [F.sqrtW, h0]
    simp only [Color.to_u8_array, Color.black, e0]
    with_unfolding_all decide
  · intro d hd
    have hred : F.le d.red (F.fin 2) = false := by
      cases hr2 : d.red <;> simp_all [F.lt, F.le]
    simp [Color.to_u8_array, hred]

/-- Witness for C6 at concrete inputs. -/
theorem claim_C6_to_u8_array_witness :
    Color.white.to_u8_array ratSqrt = some (255, 255, 255)
    ∧ Color.black.to_u8_array ratSqrt = some (0, 0, 0) :=
  ⟨(claim_C6_to_u8_array ratSqrt Color.white (by with_unfolding_all decide)
      (by with_unfolding_all decide) (by with_unfolding_all decide)
      (by with_unfolding_all decide) (by with_unfolding_all decide)).2.1,
   (claim_C6_to_u8_array ratSqrt Color.black (by with_unfolding_all decide)
      (by with_unfolding_all decide) (by with_unfolding_all decide)
      (by with_unfolding_all decide) (by with_unfolding_all decide)).2.2.1⟩

/-! ### C9: degenerate rays are silent non-hits -/

/-- C9: a negative discriminant makes `Sphere::hit` return `None` and
leaves every field of a `Sphere::hit_packed` lane untouched; a
zero-length ray direction gives `a = 0`, whose division produces
NaN/infinite roots that fail the `0.001..inf` range check, so it is
likewise a silent non-hit in both paths — no panic, no error channel. -/
theorem claim_C9_degenerate_rays (s : ℚ → ℚ) (sp : Sphere) (ray : Ray) {n : ℕ}
    (rays : PackedRays n) (recs : PackedHitRecords n) (i : Fin n) :
    (F.lt (sp.scalarDiscriminant ray) (F.fin 0) = true →
        sp.hit s ray tRangeDefault = none)
    ∧ (ray.direction = Vec3.zero → sp.hit s ray tRangeDefault = none)
    ∧ (F.lt (sp.packedDiscriminant rays i) (F.fin 0) = true →
        (sp.hit_packed s rays tRangeDefault recs).lane i = recs.lane i)
    ∧ (rays.directions.atv i = Vec3.zero →
        (sp.hit_packed s rays tRangeDefault recs).lane i = recs.lane i) := by
  refine ⟨?_, ?_, ?_, ?_⟩
  · intro h
    simp [Sphere.hit, h]
  · intro h
    have ha : ray.direction.length_squared = F.fin 0 := by
      rw [h]; with_unfolding_all decide
    simp only [Sphere.hit]
    split
    · rfl
    · simp [ha, containsF_default_div_zero]
  · intro h
    simp only [Sphere.hit_packed]
    split
    · apply PackedHitRecords.update_lane_frame
      have hnan : (sp.packedDiscriminant rays i).sqrtW s = F.nan := F.sqrtWNanOfNeg h
      simp [simd_inside, masked_select, hnan, F.subNanRight, F.nanMulLeft,
        containsF_default_nan]
    · rfl
  · intro h
    have hx : rays.directions.x i = F.fin 0 := congrArg Vec3.x h
    have hy : rays.directions.y i = F.fin 0 := congrArg Vec3.y h
    have hz : rays.directions.z i = F.fin 0 := congrArg Vec3.z h
    have ha : rays.directions.length_squared i = F.fin 0 := by
      simp only [PackedVec3.length_squared, hx, hy, hz]
      with_unfolding_all decide
    have hinv : F.fin 1 / rays.directions.length_squared i = F.inf := by
      rw [ha]; with_unfolding_all decide
    simp only [Sphere.hit_packed]
    split
    · apply PackedHitRecords.update_lane_frame
      simp [simd_inside, masked_select, hinv, containsF_default_mul_inf]
    · rfl

/-- Witness for C9: the miss ray (discriminant `-24`) and the
zero-direction ray against the unit sphere, scalar and packed. -/
theorem claim_C9_degenerate_rays_witness :
    (sphereA.hit ratSqrt rayMiss tRangeDefault = none)
    ∧ (sphereA.hit ratSqrt rayZeroDir tRangeDefault = none)
    ∧ ((sphereA.hit_packed ratSqrt raysMiss tRangeDefault
          (PackedHitRecords.defaultRecs 1)).lane 0 = (PackedHitRecords.defaultRecs 1).lane 0)
    ∧ ((sphereA.hit_packed ratSqrt raysZeroDir tRangeDefault
          (PackedHitRecords.defaultRecs 1)).lane 0 = (PackedHitRecords.defaultRecs 1).lane 0) :=
  ⟨(claim_C9_degenerate_rays ratSqrt sphereA rayMiss raysMiss
      (PackedHitRecords.defaultRecs 1) 0).1 (by with_unfolding_all decide),
   (claim_C9_degenerate_rays ratSqrt sphereA rayZeroDir raysZeroDir
      (PackedHitRecords.defaultRecs 1) 0).2.1 (by with_unfolding_all decide),
   (claim_C9_degenerate_rays ratSqrt sphereA rayMiss raysMiss
      (PackedHitRecords.defaultRecs 1) 0).2.2.1 (by with_unfolding_all decide),
   (claim_C9_degenerate_rays ratSqrt sphereA rayZeroDir raysZeroDir
      (PackedHitRecords.defaultRecs 1) 0).2.2.2 (by with_unfolding_all decide)⟩

/-! ### C3 / C10: the accumulator keeps the nearest hit -/

/-- Lane behavior of one `update` call: `t` and the material are
overwritten exactly when `valid & (t <= stored)` fires, and `hits`
accumulates the mask. -/
theorem PackedHitRecords.update_lane_step {n : ℕ} (recs : PackedHitRecords n)
    (rays : PackedRays n) (onorm : PackedVec3 n) (t : Fin n → F) (valid : Fin n → Bool)
    (mat : Material) (i : Fin n) :
    ((recs.update rays onorm t valid mat).t i
        = (if valid i && F.le (t i) (recs.t i) then t i else recs.t i))
    ∧ ((recs.update rays onorm t valid mat).hits i
        = (recs.hits i || (valid i && F.le (t i) (recs.t i))))
    ∧ ((recs.update rays onorm t valid mat).materials i
        = (if valid i && F.le (t i) (recs.t i) then some mat else recs.materials i)) :=
  ⟨rfl, rfl, rfl⟩

/-- Folding one more update on the right. -/
theorem applyUpdates_append_singleton {n : ℕ} (recs : PackedHitRecords n)
    (us : List (UpdateArgs n)) (u : UpdateArgs n) :
    applyUpdates recs (us ++ [u])
      = (applyUpdates recs us).update u.rays u.outward_normals u.t u.valid_mask u.material := by
  simp [applyUpdates, List.foldl_append]

/-- The full lane characterization of an update sequence folded onto
the default accumulator: `hits` records whether any offer was valid,
a lane without a hit still holds the default state, and a hit lane
holds the minimum valid offered `t` together with the material of the
last offer achieving it (no later valid offer ties or beats it). -/
theorem applyUpdates_lane_spec {n : ℕ} (us : List (UpdateArgs n)) (i : Fin n)
    (hfin : ∀ u ∈ us, u.valid_mask i = true → ∃ q : ℚ, u.t i = F.fin q) :
    ((applyUpdates (PackedHitRecords.defaultRecs n) us).hits i
        = us.any (fun u => u.valid_mask i))
    ∧ ((applyUpdates (PackedHitRecords.defaultRecs n) us).hits i = false →
        (applyUpdates (PackedHitRecords.defaultRecs n) us).t i = F.inf
          ∧ (applyUpdates (PackedHitRecords.defaultRecs n) us).materials i = none)
    ∧ ((applyUpdates (PackedHitRecords.defaultRecs n) us).hits i = true →
        (∀ u ∈ us, u.valid_mask i = true →
          F.le ((applyUpdates (PackedHitRecords.defaultRecs n) us).t i) (u.t i) = true)
        ∧ ∃ pre u post, us = pre ++ u :: post ∧ u.valid_mask i = true
            ∧ (applyUpdates (PackedHitRecords.defaultRecs n) us).t i = u.t i
            ∧ (applyUpdates (PackedHitRecords.defaultRecs n) us).materials i = some u.material
            ∧ ∀ v ∈ post, v.valid_mask i = true → F.le (v.t i) (u.t i) = false) := by
  revert hfin
  induction us using List.reverseRecOn with
  | nil =>
    intro _
    exact ⟨rfl, fun _ => ⟨rfl, rfl⟩, fun h => nomatch h⟩
  | append_singleton us' u ih =>
    intro hfin
    have hfin' : ∀ v ∈ us', v.valid_mask i = true → ∃ q : ℚ, v.t i = F.fin q :=
      fun v hv => hfin v (List.mem_append_left _ hv)
    obtain ⟨ih1, ih2, ih3⟩ := ih hfin'
    rw [applyUpdates_append_singleton]
    obtain ⟨ht, hh, hm⟩ := PackedHitRecords.update_lane_step
      (applyUpdates (PackedHitRecords.defaultRecs n) us') u.rays u.outward_normals u.t
      u.valid_mask u.material i
    by_cases hv : u.valid_mask i = true
    · obtain ⟨q, hq⟩ := hfin u (by simp) hv
      by_cases hAh : (applyUpdates (PackedHitRecords.defaultRecs n) us').hits i = true
      · obtain ⟨ihmin, pre, u0, post, hdec, hu0v, hAt, hAm, hpost⟩ := ih3 hAh
        obtain ⟨q0, hq0⟩ := hfin' u0 (hdec ▸ List.mem_append_right _ (List.mem_cons_self _ _)) hu0v
        by_cases hle : F.le (u.t i) ((applyUpdates (PackedHitRecords.defaultRecs n) us').t i)
            = true
        · -- the new offer wins (ties included)
          have hmask : (u.valid_mask i
              && F.le (u.t i) ((applyUpdates (PackedHitRecords.defaultRecs n) us').t i))
              = true := by simp [hv, hle]
          refine ⟨?_, ?_, ?_⟩
          · simp [hh, hmask, hAh, ih1, hv]
          · intro hcontra
            rw [hh, hmask] at hcontra
            simp at hcontra
          · intro _
            constructor
            · intro v hvmem hvv
              rw [ht, if_pos hmask]
              rcases List.mem_append.mp hvmem with hvmem | hvmem
              · exact F.leTrans hle (ihmin v hvmem hvv)
              · simp only [List.mem_singleton] at hvmem
                subst hvmem
                rw [hq]
                simp [F.le]
            · exact ⟨us', u, [], by simp, hv, by rw [ht, if_pos hmask],
                by rw [hm, if_pos hmask], fun v hvmem => nomatch hvmem⟩
        · -- the stored hit stays
          have hmask : (u.valid_mask i
              && F.le (u.t i) ((applyUpdates (PackedHitRecords.defaultRecs n) us').t i))
              = false := by simp [hle]
          refine ⟨?_, ?_, ?_⟩
          · simp [hh, hmask, hAh, ih1, hv]
          · intro hcontra
            rw [hh, hmask] at hcontra
            simp [hAh] at hcontra
          · intro _
            constructor
            · intro v hvmem hvv
              rw [ht, if_neg (by simp [hmask])]
              rcases List.mem_append.mp hvmem with hvmem | hvmem
              · exact ihmin v hvmem hvv
              · simp only [List.mem_singleton] at hvmem
                subst hvmem
                rw [hAt, hq0, hq]
                rw [hAt, hq0, hq] at hle
                exact F.leTotalOfFin (by simpa using hle)
            · refine ⟨pre, u0, post ++ [u], by rw [hdec]; simp, hu0v,
                by rw [ht, if_neg (by simp [hmask])]; exact hAt,
                by rw [hm, if_neg (by simp [hmask])]; exact hAm, ?_⟩
              intro v hvmem hvv
              rcases List.mem_append.mp hvmem with hvmem | hvmem
              · exact hpost v hvmem hvv
              · simp only [List.mem_singleton] at hvmem
                subst hvmem
                rw [← hAt]
                simpa using hle
      · -- the first valid offer always beats the +inf default
        have hAh' : (applyUpdates (PackedHitRecords.defaultRecs n) us').hits i = false := by
          simpa using hAh
        obtain ⟨hAt, hAm⟩ := ih2 hAh'
        have hle : F.le (u.t i) ((applyUpdates (PackedHitRecords.defaultRecs n) us').t i)
            = true := by rw [hAt, hq]; simp [F.le]
        have hmask : (u.valid_mask i
            && F.le (u.t i) ((applyUpdates (PackedHitRecords.defaultRecs n) us').t i))
            = true := by simp [hv, hle]
        refine ⟨?_, ?_, ?_⟩
        · simp [hh, hle, hAh', ih1, hv]
        · intro hcontra
          rw [hh, hmask] at hcontra
          simp at hcontra
        · intro _
          constructor
          · intro v hvmem hvv
            rw [ht, if_pos hmask]
            rcases List.mem_append.mp hvmem with hvmem | hvmem
            · exact absurd (ih1 ▸ List.any_eq_true.mpr ⟨v, hvmem, hvv⟩) (by simp [hAh'])
            · simp only [List.mem_singleton] at hvmem
              subst hvmem
              rw [hq]
              simp [F.le]
          · exact ⟨us', u, [], by simp, hv, by rw [ht, if_pos hmask],
              by rw [hm, if_pos hmask], fun v hvmem => nomatch hvmem⟩
    · -- an invalid offer changes nothing at this lane
      have hv' : u.valid_mask i = false := by simpa using hv
      have hmask : (u.valid_mask i
          && F.le (u.t i) ((applyUpdates (PackedHitRecords.defaultRecs n) us').t i))
          = false := by simp [hv']
      refine ⟨?_, ?_, ?_⟩
      · simp [hh, hmask, ih1, hv']
      · intro hcontra
        rw [hh, hmask] at hcontra
        simp at hcontra
        exact (ih2 hcontra).imp (by rw [ht, if_neg (by simp [hmask])]; exact fun e => e)
          (by rw [hm, if_neg (by simp [hmask])]; exact fun e => e)
      · intro hhit
        rw [hh, hmask, Bool.or_false] at hhit
        obtain ⟨ihmin, pre, u0, post, hdec, hu0v, hAt, hAm, hpost⟩ := ih3 hhit
        constructor
        · intro v hvmem hvv
          rw [ht, if_neg (by simp [hmask])]
          rcases List.mem_append.mp hvmem with hvmem | hvmem
          · exact ihmin v hvmem hvv
          · simp only [List.mem_singleton] at hvmem
            subst hvmem
            simp [hv'] at hvv
        · refine ⟨pre, u0, post ++ [u], by rw [hdec]; simp, hu0v,
            by rw [ht, if_neg (by simp [hmask])]; exact hAt,
            by rw [hm, if_neg (by simp [hmask])]; exact hAm, ?_⟩
          intro v hvmem hvv
          rcases List.mem_append.mp hvmem with hvmem | hvmem
          · exact hpost v hvmem hvv
          · simp only [List.mem_singleton] at hvmem
            subst hvmem
            simp [hv'] at hvv

/-- C3: starting from the default accumulator, after any sequence of
`update` calls whose valid offers lie in `0.001..inf`, a lane with
`hits[i]` set stores the minimum `t` over all valid offers at this
lane, and the stored material is that of the last offer achieving the
minimum — an offered `t` exactly equal to the stored best replaces it,
because the update condition is `t <= stored`, not `<`. -/
theorem claim_C3_nearest_hit {n : ℕ} (us : List (UpdateArgs n)) (i : Fin n)
    (hfin : ∀ u ∈ us, u.valid_mask i = true → tRangeDefault.containsF (u.t i) = true) :
    ((applyUpdates (PackedHitRecords.defaultRecs n) us).hits i
        = us.any (fun u => u.valid_mask i))
    ∧ ((applyUpdates (PackedHitRecords.defaultRecs n) us).hits i = true →
        (∀ u ∈ us, u.valid_mask i = true →
          F.le ((applyUpdates (PackedHitRecords.defaultRecs n) us).t i) (u.t i) = true)
        ∧ ∃ pre u post, us = pre ++ u :: post ∧ u.valid_mask i = true
            ∧ (applyUpdates (PackedHitRecords.defaultRecs n) us).t i = u.t i
            ∧ (applyUpdates (PackedHitRecords.defaultRecs n) us).materials i = some u.material
            ∧ ∀ v ∈ post, v.valid_mask i = true → F.le (v.t i) (u.t i) = false) := by
  have h := applyUpdates_lane_spec us i (fun u hu hv => containsF_default_fin (hfin u hu hv))
  exact ⟨h.1, h.2.2⟩

/-- Witness for C3 on a concrete three-offer sequence (`t = 3`, then
two tied offers at `t = 2`): the lane records a hit whose stored `t`
is at most the tied offers' `2`. -/
theorem claim_C3_nearest_hit_witness :
    (applyUpdates (PackedHitRecords.defaultRecs 1) updatesW).hits 0 = true
    ∧ F.le ((applyUpdates (PackedHitRecords.defaultRecs 1) updatesW).t 0) (F.fin 2) = true := by
  have h := claim_C3_nearest_hit updatesW 0 (by
    intro u hu hv
    simp only [updatesW] at hu
    fin_cases hu <;> with_unfolding_all decide)
  have hhits : (applyUpdates (PackedHitRecords.defaultRecs 1) updatesW).hits 0 = true := by
    rw [h.1]; with_unfolding_all decide
  exact ⟨hhits,
    (h.2 hhits).1 ⟨raysA, PackedVec3.zeros 1, fun _ => .fin 2, fun _ => true, mtlMetalW⟩
      (List.Mem.tail _ (List.Mem.tail _ (List.Mem.head _))) (by with_unfolding_all decide)⟩

/-- C10: across any update sequence on one accumulator (whose stored
`t` at the lane is not NaN), the lane's state is monotone: a set
`hits[i]` never reverts, the stored `t[i]` never increases, and a lane
whose update mask never fires keeps location, normal, `t`, front-face,
hit flag and material unchanged. -/
theorem claim_C10_lane_monotone {n : ℕ} (recs : PackedHitRecords n)
    (us : List (UpdateArgs n)) (i : Fin n) (hnan : recs.t i ≠ F.nan) :
    ((recs.hits i = true → (applyUpdates recs us).hits i = true)
    ∧ F.le ((applyUpdates recs us).t i) (recs.t i) = true
    ∧ (laneTouched recs us i = false → (applyUpdates recs us).lane i = recs.lane i)) := by
  induction us generalizing recs with
  | nil => exact ⟨fun h => h, F.leReflOfNeNan hnan, fun _ => rfl⟩
  | cons u rest ih =>
    obtain ⟨ht, hh, _⟩ := PackedHitRecords.update_lane_step recs u.rays u.outward_normals
      u.t u.valid_mask u.material i
    by_cases hmask : (u.valid_mask i && F.le (u.t i) (recs.t i)) = true
    · have hle : F.le (u.t i) (recs.t i) = true := by
        have h2 := hmask
        simp only [Bool.and_eq_true] at h2
        exact h2.2
      have hteq : (recs.update u.rays u.outward_normals u.t u.valid_mask u.material).t i
          = u.t i := by rw [ht, if_pos hmask]
      have hnan' : (recs.update u.rays u.outward_normals u.t u.valid_mask u.material).t i
          ≠ F.nan := by rw [hteq]; exact F.leNotNanLeft hle
      obtain ⟨ih1, ih2, _⟩ := ih _ hnan'
      refine ⟨?_, ?_, ?_⟩
      · intro h
        exact ih1 (by rw [hh, h]; simp)
      · rw [hteq] at ih2
        exact F.leTrans ih2 hle
      · intro htouch
        simp [laneTouched, hmask] at htouch
    · have hmaskf : (u.valid_mask i && F.le (u.t i) (recs.t i)) = false := by
        simpa using hmask
      have hteq : (recs.update u.rays u.outward_normals u.t u.valid_mask u.material).t i
          = recs.t i := by rw [ht, if_neg (by simp [hmaskf])]
      obtain ⟨ih1, ih2, ih3⟩ := ih _ (by rw [hteq]; exact hnan)
      refine ⟨?_, ?_, ?_⟩
      · intro h
        exact ih1 (by rw [hh, hmaskf, h]; simp)
      · rw [hteq] at ih2
        exact ih2
      · intro htouch
        have hframe := PackedHitRecords.update_lane_frame recs u.rays u.outward_normals
          u.t u.valid_mask u.material i hmaskf
        have hrest : laneTouched
            (recs.update u.rays u.outward_normals u.t u.valid_mask u.material) rest i
            = false := by
          rw [laneTouched, hmaskf] at htouch
          simpa using htouch
        exact (ih3 hrest).trans hframe

/-- Witness for C10 from the default accumulator through the concrete
three-offer sequence. -/
theorem claim_C10_lane_monotone_witness :
    (((PackedHitRecords.defaultRecs 1).hits 0 = true →
        (applyUpdates (PackedHitRecords.defaultRecs 1) updatesW).hits 0 = true)
    ∧ F.le ((applyUpdates (PackedHitRecords.defaultRecs 1) updatesW).t 0)
        ((PackedHitRecords.defaultRecs 1).t 0) = true
    ∧ (laneTouched (PackedHitRecords.defaultRecs 1) updatesW 0 = false →
        (applyUpdates (PackedHitRecords.defaultRecs 1) updatesW).lane 0
          = (PackedHitRecords.defaultRecs 1).lane 0)) :=
  claim_C10_lane_monotone (PackedHitRecords.defaultRecs 1) updatesW 0
    (by with_unfolding_all decide)

end RayTrace
